import Mathlib

/-!
Verification of the `mdz_ansi_dyn` byte-string engine against its
natural-language specification.

The repository ships the public headers (`mdz_ansi_dyn.h`, `mdz_error.h`,
`mdz_ansi_compare_result.h`, `mdz_ansi_replace_type.h`, `mdz_bool.h`,
`mdz_attach_type.h`); the implementation translation unit is not part of the
source tree.  The enumerations and the validation/error taxonomy below are
translated from the headers.  The operation bodies are modelled from the
specification (see the individual doc comments starting with
`Modelled from the spec:`).

Modelling conventions:
* `size_t` values are `Nat`; `SIZE_MAX` is the concrete constant `2 ^ 64 - 1`.
  Capacity-representability checks ("Capacity is too large") are vacuous over
  `Nat` and are not modelled.
* A byte buffer is a `List Nat` of byte values; `char*` arguments are
  `Option` values (`Option.none` models a NULL pointer).
* Pointer identity, needed only by the overlap checks of `insert` and
  `replace`, is modelled by a base address (`addr : Nat`) carried by the
  handle and by the address component of the item arguments.
* The allocator capability is the record `AllocFunctions` of three booleans;
  a registered reallocation function is modelled as always succeeding
  (`MDZ_ERROR_ALLOCATION` is environmental nondeterminism outside the model).
* The licensing gate (`mdz_ansi_dyn_init`) is declared out of scope by the
  specification and is assumed satisfied, so `MDZ_ERROR_LICENSE` paths are
  not modelled.
-/

/-- Error codes of `mdz_error.h`. -/
inductive mdz_error where
  | MDZ_ERROR_NONE
  | MDZ_ERROR_LICENSE
  | MDZ_ERROR_DATA
  | MDZ_ERROR_SIZE
  | MDZ_ERROR_CAPACITY
  | MDZ_ERROR_ZERO_SIZE
  | MDZ_ERROR_BIG_SIZE
  | MDZ_ERROR_ZERO_COUNT
  | MDZ_ERROR_BIG_COUNT
  | MDZ_ERROR_BIG_LEFT
  | MDZ_ERROR_BIG_RIGHT
  | MDZ_ERROR_ITEMS
  | MDZ_ERROR_TERMINATOR
  | MDZ_ERROR_OVERLAP
  | MDZ_ERROR_ALLOC_FUNC
  | MDZ_ERROR_REALLOC_FUNC
  | MDZ_ERROR_FREE_FUNC
  | MDZ_ERROR_ALLOCATION
  | MDZ_ERROR_ATTACHED
  | MDZ_ERROR_REPLACEMENT_TYPE
  | MDZ_ERROR_BIG_REPLACE
  | MDZ_ERROR_OVERLAP_REPLACE
deriving DecidableEq, Repr

/-- Comparison results of `mdz_ansi_compare_result.h`. -/
inductive mdz_ansi_compare_result where
  | MDZ_ANSI_COMPARE_EQUAL
  | MDZ_ANSI_COMPARE_NONEQUAL
  | MDZ_ANSI_COMPARE_GREATER
  | MDZ_ANSI_COMPARE_SMALLER
  | MDZ_ANSI_COMPARE_ERROR
deriving DecidableEq, Repr

/-- Replacement modes of `mdz_ansi_replace_type.h`. -/
inductive mdz_ansi_replace_type where
  | MDZ_ANSI_REPLACE_DUAL
  | MDZ_ANSI_REPLACE_STRAIGHT
deriving DecidableEq, Repr

/-- Allocator capability registered through `mdz_ansi_dyn_setAllocFunctions`;
each member is independently optional, modelled as a presence flag. -/
structure AllocFunctions where
  pAllocFunc : Bool
  pReallocFunc : Bool
  pFreeFunc : Bool
deriving DecidableEq, Repr

/-- The `mdz_AnsiDyn` string handle: a backing buffer of byte values
(intended length `capacity + 1`, the extra slot holding the terminator), the
live `size`, the reserved `capacity`, the attachment flag distinguishing
`Owned` from `Attached` handles, and the base address `addr` of the `Data`
region used by the overlap checks. -/
structure mdz_AnsiDyn where
  addr : Nat
  buf : List Nat
  size : Nat
  capacity : Nat
  attached : Bool
deriving DecidableEq, Repr

/-- The C constant `SIZE_MAX` for a 64-bit `size_t`. -/
def SIZE_MAX : Nat := 2 ^ 64 - 1

/-- Terminator validation `Data[Size] == 0`; an out-of-range access is
treated as a missing terminator (default byte 1). -/
def terminatorOk (s : mdz_AnsiDyn) : Prop := s.buf.getD s.size 1 = 0

instance (s : mdz_AnsiDyn) : Decidable (terminatorOk s) := by
  unfold terminatorOk; infer_instance

/-- The live content `Data[0 .. Size-1]` of a handle. -/
def liveOf (s : mdz_AnsiDyn) : List Nat := s.buf.take s.size

/-- Rewrite the content and the terminator of a handle: the new live bytes,
followed by the terminator byte, followed by the untouched remainder of the
backing buffer. -/
def setLive (s : mdz_AnsiDyn) (nl : List Nat) : mdz_AnsiDyn :=
  { s with buf := nl ++ 0 :: s.buf.drop (nl.length + 1), size := nl.length }

/-- Grow the backing buffer of an `Owned` handle to the new capacity through
the registered reallocation function (always succeeding in the model; fresh
bytes are zero). -/
def growTo (s : mdz_AnsiDyn) (nCap : Nat) : mdz_AnsiDyn :=
  { s with buf := s.buf ++ List.replicate (nCap + 1 - s.buf.length) 0,
           capacity := nCap }

/-- Overlap of the address range `[nData, nDataEnd]` (inclusive) with the
item region `[nItems, nItems + nItemsCount - 1]`; an empty item region never
overlaps. -/
def itemsOverlap (nData nDataEnd nItems nItemsCount : Nat) : Prop :=
  0 < nItemsCount ∧ nItems ≤ nDataEnd ∧ nData ≤ nItems + nItemsCount - 1

instance (a b c d : Nat) : Decidable (itemsOverlap a b c d) := by
  unfold itemsOverlap; infer_instance

/-- Return Size of string Data; 0 if `psAnsi` is NULL. -/
def mdz_ansi_dyn_size : Option mdz_AnsiDyn → Nat
  | Option.none => 0
  | some s => s.size

/-- Return Capacity of string Data; 0 if `psAnsi` is NULL. -/
def mdz_ansi_dyn_capacity : Option mdz_AnsiDyn → Nat
  | Option.none => 0
  | some s => s.capacity

/-- Return pointer to string Data; NULL (`Option.none`) if `psAnsi` is NULL. -/
def mdz_ansi_dyn_data : Option mdz_AnsiDyn → Option Nat
  | Option.none => Option.none
  | some s => some s.addr

/-- Return const pointer to string Data; NULL if `psAnsi` is NULL. -/
def mdz_ansi_dyn_dataConst : Option mdz_AnsiDyn → Option Nat
  | Option.none => Option.none
  | some s => some s.addr

/-- The pattern `pat` occurs in `w` at alignment `k`. -/
def MatchAt (w pat : List Nat) (k : Nat) : Prop := (w.drop k).take pat.length = pat

instance (w pat : List Nat) (k : Nat) : Decidable (MatchAt w pat k) := by
  unfold MatchAt; infer_instance

/-- Index of the rightmost occurrence of `c` in `l`, if any. -/
def lastIdx : List Nat → Nat → Option Nat
  | [], _ => Option.none
  | a :: rest, c =>
    match lastIdx rest c with
    | some i => some (i + 1)
    | Option.none => if a = c then some 0 else Option.none

/-- Modelled from the spec: the Boyer-Moore-Horspool skip table of the search
engine (implementation translation unit absent from the tree).  The entry for
byte `c` is the distance from the rightmost occurrence of `c` among the first
`length - 1` pattern bytes to the pattern end, falling back to a skip of 1
when `c` does not occur there. -/
def bmhSkip (pat : List Nat) (c : Nat) : Nat :=
  match lastIdx (pat.take (pat.length - 1)) c with
  | some i => pat.length - 1 - i
  | Option.none => 1

/-- Fuel-indexed core loop of the forward Boyer-Moore-Horspool scan: try the
alignment `k`; on failure advance by the skip-table entry of the window byte
under the pattern's last position. -/
def bmhLoopF : Nat → List Nat → List Nat → Nat → Option Nat
  | 0, _, _, _ => Option.none
  | fuel + 1, w, pat, k =>
    if k + pat.length ≤ w.length then
      if (w.drop k).take pat.length = pat then some k
      else bmhLoopF fuel w pat (k + bmhSkip pat (w.getD (k + pat.length - 1) 0))
    else Option.none

/-- Modelled from the spec: the forward Boyer-Moore-Horspool scan of the
search engine starting at alignment `k` (implementation translation unit
absent from the tree).  The fuel `w.length + 1 - k` is sufficient because
every skip is at least 1. -/
def bmhLoop (w pat : List Nat) (k : Nat) : Option Nat :=
  bmhLoopF (w.length + 1 - k) w pat k

/-- Fuel-indexed naive scan: the smallest alignment `i ≥ k` at which the
pattern occurs, trying every alignment in turn. -/
def specFindFromF : Nat → List Nat → List Nat → Nat → Option Nat
  | 0, _, _, _ => Option.none
  | fuel + 1, w, pat, k =>
    if k + pat.length ≤ w.length then
      if (w.drop k).take pat.length = pat then some k
      else specFindFromF fuel w pat (k + 1)
    else Option.none

/-- Specification-side search: the smallest alignment `i ≥ k` with a full
pattern match, found by the naive left-to-right scan. -/
def specFindFrom (w pat : List Nat) (k : Nat) : Option Nat :=
  specFindFromF (w.length + 1 - k) w pat k

/-- Specification-side backward search: the largest alignment `i ≤ k` with a
full pattern match, found by the naive right-to-left scan. -/
def specFindBack (w pat : List Nat) : Nat → Option Nat
  | 0 =>
    if pat.length ≤ w.length ∧ w.take pat.length = pat then some 0
    else Option.none
  | k + 1 =>
    if k + 1 + pat.length ≤ w.length ∧ (w.drop (k + 1)).take pat.length = pat then
      some (k + 1)
    else specFindBack w pat k

/-- Fuel-indexed removal of every occurrence of `pat` scanning `w` from the
left; after a match the scan resumes beyond the removed bytes. -/
def removeAllLF : Nat → List Nat → List Nat → List Nat
  | 0, w, _ => w
  | fuel + 1, w, pat =>
    match w with
    | [] => []
    | a :: rest =>
      if 0 < pat.length ∧ w.take pat.length = pat then
        removeAllLF fuel (w.drop pat.length) pat
      else a :: removeAllLF fuel rest pat

/-- Modelled from the spec: remove-by-match content transformation scanning
from the left (implementation translation unit absent from the tree). -/
def removeAllL (w pat : List Nat) : List Nat := removeAllLF w.length w pat

/-- Modelled from the spec: remove-by-match content transformation scanning
from the right, the mirror image of the scan from the left. -/
def removeAllR (w pat : List Nat) : List Nat :=
  (removeAllL w.reverse pat.reverse).reverse

/-- Fuel-indexed substitution of every occurrence of `before` by `after`,
scanning `w` from the left; after a match the scan resumes beyond the
substituted bytes. -/
def replaceAllLF : Nat → List Nat → List Nat → List Nat → List Nat
  | 0, w, _, _ => w
  | fuel + 1, w, nBefore, nAfter =>
    match w with
    | [] => []
    | a :: rest =>
      if 0 < nBefore.length ∧ w.take nBefore.length = nBefore then
        nAfter ++ replaceAllLF fuel (w.drop nBefore.length) nBefore nAfter
      else a :: replaceAllLF fuel rest nBefore nAfter

/-- Modelled from the spec: replace content transformation scanning from the
left (implementation translation unit absent from the tree). -/
def replaceAllL (w nBefore nAfter : List Nat) : List Nat :=
  replaceAllLF w.length w nBefore nAfter

/-- Modelled from the spec: replace content transformation scanning from the
right, the mirror image of the scan from the left. -/
def replaceAllR (w nBefore nAfter : List Nat) : List Nat :=
  (replaceAllL w.reverse nBefore.reverse nAfter.reverse).reverse

/-- Fuel-indexed occurrence counting: locate the next match through the
engine's Boyer-Moore-Horspool scan and resume one byte (overlapping mode) or
one pattern length (non-overlapping mode) further. -/
def countLoopF : Nat → List Nat → List Nat → Bool → Nat
  | 0, _, _, _ => 0
  | fuel + 1, w, pat, bAllowOverlapped =>
    if pat.length = 0 then 0
    else
      match bmhLoop w pat 0 with
      | Option.none => 0
      | some i =>
        1 + countLoopF fuel
              (w.drop (i + (if bAllowOverlapped then 1 else pat.length)))
              pat bAllowOverlapped

/-- Modelled from the spec: occurrence counting over a window (implementation
translation unit absent from the tree). -/
def countLoop (w pat : List Nat) (bAllowOverlapped : Bool) : Nat :=
  countLoopF w.length w pat bAllowOverlapped

/-- Validation chain of `mdz_ansi_dyn_insert`, in the order documented in
`mdz_ansi_dyn.h`: capacity, terminator, items pointer, count, left position,
overlap, and the growth preconditions (attachment, reallocation capability). -/
def insertChecks (caps : AllocFunctions) (s : mdz_AnsiDyn) (nLeftPos : Nat)
    (pcItems : Option (Nat × List Nat)) : Option mdz_error :=
  if s.capacity = 0 then some .MDZ_ERROR_CAPACITY
  else if ¬ terminatorOk s then some .MDZ_ERROR_TERMINATOR
  else
    match pcItems with
    | Option.none => some .MDZ_ERROR_ITEMS
    | some (nAddr, items) =>
      if items.length = 0 then some .MDZ_ERROR_ZERO_COUNT
      else if s.size < nLeftPos then some .MDZ_ERROR_BIG_LEFT
      else if itemsOverlap s.addr (s.addr + s.size + items.length) nAddr
                items.length then some .MDZ_ERROR_OVERLAP
      else if s.size + items.length ≤ s.capacity then Option.none
      else if s.attached then some .MDZ_ERROR_ATTACHED
      else if ¬ caps.pReallocFunc then some .MDZ_ERROR_REALLOC_FUNC
      else Option.none

/-- Content transformation of a successful insert: the bytes before
`nLeftPos`, the inserted items, the former tail, with the capacity grown
first when the request does not fit. -/
def insertApply (s : mdz_AnsiDyn) (nLeftPos : Nat) (items : List Nat) :
    mdz_AnsiDyn :=
  let live := liveOf s
  let nl := live.take nLeftPos ++ items ++ live.drop nLeftPos
  if s.size + items.length ≤ s.capacity then setLive s nl
  else setLive (growTo s (s.size + items.length)) nl

/-- Modelled from the spec: `mdz_ansi_dyn_insert` (implementation translation
unit absent from the tree).  Inserts the item bytes at `nLeftPos`, growing
through the registered reallocation function when the request exceeds the
capacity; every validation failure is reported before any byte is mutated. -/
def mdz_ansi_dyn_insert (caps : AllocFunctions) (ppsAnsi : Option mdz_AnsiDyn)
    (nLeftPos : Nat) (pcItems : Option (Nat × List Nat)) :
    mdz_error × Option mdz_AnsiDyn :=
  match ppsAnsi with
  | Option.none => (.MDZ_ERROR_DATA, Option.none)
  | some s =>
    match insertChecks caps s nLeftPos pcItems with
    | some e => (e, some s)
    | Option.none =>
      (.MDZ_ERROR_NONE, some (insertApply s nLeftPos (pcItems.getD (0, [])).2))

/-- Validation chain of `mdz_ansi_dyn_removeFrom`, in the order documented in
`mdz_ansi_dyn.h`. -/
def removeFromChecks (s : mdz_AnsiDyn) (nLeftPos nCount : Nat) :
    Option mdz_error :=
  if s.capacity < s.size then some .MDZ_ERROR_BIG_SIZE
  else if ¬ terminatorOk s then some .MDZ_ERROR_TERMINATOR
  else if s.size = 0 then some .MDZ_ERROR_ZERO_SIZE
  else if nCount = 0 then some .MDZ_ERROR_ZERO_COUNT
  else if s.size ≤ nLeftPos then some .MDZ_ERROR_BIG_LEFT
  else if s.size - nLeftPos < nCount then some .MDZ_ERROR_BIG_COUNT
  else Option.none

/-- Modelled from the spec: `mdz_ansi_dyn_removeFrom` (implementation
translation unit absent from the tree).  Deletes `nCount` bytes at
`nLeftPos`, shifts the tail left and rewrites the terminator. -/
def mdz_ansi_dyn_removeFrom (psAnsi : Option mdz_AnsiDyn)
    (nLeftPos nCount : Nat) : mdz_error × Option mdz_AnsiDyn :=
  match psAnsi with
  | Option.none => (.MDZ_ERROR_DATA, Option.none)
  | some s =>
    match removeFromChecks s nLeftPos nCount with
    | some e => (e, some s)
    | Option.none =>
      let live := liveOf s
      (.MDZ_ERROR_NONE,
        some (setLive s (live.take nLeftPos ++ live.drop (nLeftPos + nCount))))

/-- Validation chain shared by the range operations `remove`, `trimLeft`,
`trimRight` and `trim`, in the order documented in `mdz_ansi_dyn.h`
(`remove` additionally rejects a pattern longer than the search area). -/
def rangeChecks (s : mdz_AnsiDyn) (nLeftPos nRightPos : Nat)
    (pcItems : Option (List Nat)) (checkBigCount : Bool) : Option mdz_error :=
  if s.capacity < s.size then some .MDZ_ERROR_BIG_SIZE
  else if ¬ terminatorOk s then some .MDZ_ERROR_TERMINATOR
  else if s.size = 0 then some .MDZ_ERROR_ZERO_SIZE
  else
    match pcItems with
    | Option.none => some .MDZ_ERROR_ITEMS
    | some items =>
      if items.length = 0 then some .MDZ_ERROR_ZERO_COUNT
      else if s.size ≤ nRightPos then some .MDZ_ERROR_BIG_RIGHT
      else if nRightPos < nLeftPos then some .MDZ_ERROR_BIG_LEFT
      else if checkBigCount ∧ nRightPos + 1 - nLeftPos < items.length then
        some .MDZ_ERROR_BIG_COUNT
      else Option.none

/-- Reassemble the live content after transforming the window
`[nLeftPos, nRightPos]`. -/
def spliceWindow (s : mdz_AnsiDyn) (nLeftPos nRightPos : Nat)
    (f : List Nat → List Nat) : List Nat :=
  let live := liveOf s
  live.take nLeftPos ++ f ((live.drop nLeftPos).take (nRightPos + 1 - nLeftPos))
    ++ live.drop (nRightPos + 1)

/-- Modelled from the spec: `mdz_ansi_dyn_remove` (implementation translation
unit absent from the tree).  Removes every occurrence of the item bytes
inside `[nLeftPos, nRightPos]`, scanning from the requested direction. -/
def mdz_ansi_dyn_remove (psAnsi : Option mdz_AnsiDyn)
    (nLeftPos nRightPos : Nat) (pcItems : Option (List Nat))
    (bFromLeft : Bool) : mdz_error × Option mdz_AnsiDyn :=
  match psAnsi with
  | Option.none => (.MDZ_ERROR_DATA, Option.none)
  | some s =>
    match rangeChecks s nLeftPos nRightPos pcItems true with
    | some e => (e, some s)
    | Option.none =>
      let pat := pcItems.getD []
      let f := fun w => if bFromLeft then removeAllL w pat else removeAllR w pat
      (.MDZ_ERROR_NONE, some (setLive s (spliceWindow s nLeftPos nRightPos f)))

/-- Modelled from the spec: `mdz_ansi_dyn_trimLeft` (implementation
translation unit absent from the tree).  Removes the maximal prefix of the
window consisting of bytes of the item set. -/
def mdz_ansi_dyn_trimLeft (psAnsi : Option mdz_AnsiDyn)
    (nLeftPos nRightPos : Nat) (pcItems : Option (List Nat)) :
    mdz_error × Option mdz_AnsiDyn :=
  match psAnsi with
  | Option.none => (.MDZ_ERROR_DATA, Option.none)
  | some s =>
    match rangeChecks s nLeftPos nRightPos pcItems false with
    | some e => (e, some s)
    | Option.none =>
      let pat := pcItems.getD []
      let f := fun w : List Nat => w.dropWhile (fun c => pat.contains c)
      (.MDZ_ERROR_NONE, some (setLive s (spliceWindow s nLeftPos nRightPos f)))

/-- Modelled from the spec: `mdz_ansi_dyn_trimRight` (implementation
translation unit absent from the tree).  Removes the maximal suffix of the
window consisting of bytes of the item set. -/
def mdz_ansi_dyn_trimRight (psAnsi : Option mdz_AnsiDyn)
    (nLeftPos nRightPos : Nat) (pcItems : Option (List Nat)) :
    mdz_error × Option mdz_AnsiDyn :=
  match psAnsi with
  | Option.none => (.MDZ_ERROR_DATA, Option.none)
  | some s =>
    match rangeChecks s nLeftPos nRightPos pcItems false with
    | some e => (e, some s)
    | Option.none =>
      let pat := pcItems.getD []
      let f := fun w : List Nat =>
        (w.reverse.dropWhile (fun c => pat.contains c)).reverse
      (.MDZ_ERROR_NONE, some (setLive s (spliceWindow s nLeftPos nRightPos f)))

/-- Modelled from the spec: `mdz_ansi_dyn_trim` (implementation translation
unit absent from the tree).  Removes the maximal prefix and suffix of the
window consisting of bytes of the item set. -/
def mdz_ansi_dyn_trim (psAnsi : Option mdz_AnsiDyn)
    (nLeftPos nRightPos : Nat) (pcItems : Option (List Nat)) :
    mdz_error × Option mdz_AnsiDyn :=
  match psAnsi with
  | Option.none => (.MDZ_ERROR_DATA, Option.none)
  | some s =>
    match rangeChecks s nLeftPos nRightPos pcItems false with
    | some e => (e, some s)
    | Option.none =>
      let pat := pcItems.getD []
      let f := fun w : List Nat =>
        ((w.dropWhile (fun c => pat.contains c)).reverse.dropWhile
          (fun c => pat.contains c)).reverse
      (.MDZ_ERROR_NONE, some (setLive s (spliceWindow s nLeftPos nRightPos f)))

/-- Validation chain of `mdz_ansi_dyn_reverse`, in the order documented in
`mdz_ansi_dyn.h` (a range of fewer than two bytes is rejected). -/
def reverseChecks (s : mdz_AnsiDyn) (nLeftPos nRightPos : Nat) :
    Option mdz_error :=
  if s.capacity < s.size then some .MDZ_ERROR_BIG_SIZE
  else if ¬ terminatorOk s then some .MDZ_ERROR_TERMINATOR
  else if s.size ≤ nRightPos then some .MDZ_ERROR_BIG_RIGHT
  else if nRightPos ≤ nLeftPos then some .MDZ_ERROR_BIG_LEFT
  else Option.none

/-- Modelled from the spec: `mdz_ansi_dyn_reverse` (implementation
translation unit absent from the tree).  Reverses the bytes of the inclusive
window `[nLeftPos, nRightPos]` in place. -/
def mdz_ansi_dyn_reverse (psAnsi : Option mdz_AnsiDyn)
    (nLeftPos nRightPos : Nat) : mdz_error × Option mdz_AnsiDyn :=
  match psAnsi with
  | Option.none => (.MDZ_ERROR_DATA, Option.none)
  | some s =>
    match reverseChecks s nLeftPos nRightPos with
    | some e => (e, some s)
    | Option.none =>
      (.MDZ_ERROR_NONE,
        some (setLive s (spliceWindow s nLeftPos nRightPos List.reverse)))

/-- Validation chain shared by the search operations `find`, `rfind` and
`count`, in the order documented in `mdz_ansi_dyn.h`. -/
def findChecks (s : mdz_AnsiDyn) (nLeftPos nRightPos : Nat)
    (pcItems : Option (List Nat)) : Option mdz_error :=
  if s.capacity < s.size then some .MDZ_ERROR_BIG_SIZE
  else if ¬ terminatorOk s then some .MDZ_ERROR_TERMINATOR
  else
    match pcItems with
    | Option.none => some .MDZ_ERROR_ITEMS
    | some items =>
      if items.length = 0 then some .MDZ_ERROR_ZERO_COUNT
      else if s.size ≤ nRightPos then some .MDZ_ERROR_BIG_RIGHT
      else if nRightPos < nLeftPos then some .MDZ_ERROR_BIG_LEFT
      else if nRightPos + 1 - nLeftPos < items.length then
        some .MDZ_ERROR_BIG_COUNT
      else Option.none

/-- The inclusive search window `Data[nLeftPos .. nRightPos]` of a handle. -/
def windowOf (s : mdz_AnsiDyn) (nLeftPos nRightPos : Nat) : List Nat :=
  ((liveOf s).drop nLeftPos).take (nRightPos + 1 - nLeftPos)

/-- Modelled from the spec: `mdz_ansi_dyn_find` (implementation translation
unit absent from the tree).  Boyer-Moore-Horspool search for the first
occurrence of the item bytes inside `[nLeftPos, nRightPos]`; the position of
the match and the error code are returned (`SIZE_MAX` when not found or on a
validation failure). -/
def mdz_ansi_dyn_find (psAnsi : Option mdz_AnsiDyn) (nLeftPos nRightPos : Nat)
    (pcItems : Option (List Nat)) : Nat × mdz_error :=
  match psAnsi with
  | Option.none => (SIZE_MAX, .MDZ_ERROR_DATA)
  | some s =>
    match findChecks s nLeftPos nRightPos pcItems with
    | some e => (SIZE_MAX, e)
    | Option.none =>
      let pat := pcItems.getD []
      match bmhLoop (windowOf s nLeftPos nRightPos) pat 0 with
      | some i => (nLeftPos + i, .MDZ_ERROR_NONE)
      | Option.none => (SIZE_MAX, .MDZ_ERROR_NONE)

/-- Modelled from the spec: `mdz_ansi_dyn_rfind` (implementation translation
unit absent from the tree).  The backward Boyer-Moore-Horspool search mirrors
the forward one symmetrically; it is modelled as the forward scan of the
reversed window for the reversed pattern, with the alignment translated
back. -/
def mdz_ansi_dyn_rfind (psAnsi : Option mdz_AnsiDyn) (nLeftPos nRightPos : Nat)
    (pcItems : Option (List Nat)) : Nat × mdz_error :=
  match psAnsi with
  | Option.none => (SIZE_MAX, .MDZ_ERROR_DATA)
  | some s =>
    match findChecks s nLeftPos nRightPos pcItems with
    | some e => (SIZE_MAX, e)
    | Option.none =>
      let pat := pcItems.getD []
      let w := windowOf s nLeftPos nRightPos
      match bmhLoop w.reverse pat.reverse 0 with
      | some j => (nLeftPos + (w.length - pat.length - j), .MDZ_ERROR_NONE)
      | Option.none => (SIZE_MAX, .MDZ_ERROR_NONE)

/-- Modelled from the spec: `mdz_ansi_dyn_count` (implementation translation
unit absent from the tree).  Counts occurrences of the item bytes inside
`[nLeftPos, nRightPos]`; the overlapping mode advances one byte per match,
the non-overlapping mode one pattern length; counting from the right is the
mirror image of counting from the left. -/
def mdz_ansi_dyn_count (psAnsi : Option mdz_AnsiDyn) (nLeftPos nRightPos : Nat)
    (pcItems : Option (List Nat)) (bAllowOverlapped bFromLeft : Bool) :
    Nat × mdz_error :=
  match psAnsi with
  | Option.none => (SIZE_MAX, .MDZ_ERROR_DATA)
  | some s =>
    match findChecks s nLeftPos nRightPos pcItems with
    | some e => (SIZE_MAX, e)
    | Option.none =>
      let pat := pcItems.getD []
      let w := windowOf s nLeftPos nRightPos
      if bFromLeft then (countLoop w pat bAllowOverlapped, .MDZ_ERROR_NONE)
      else (countLoop w.reverse pat.reverse bAllowOverlapped, .MDZ_ERROR_NONE)

/-- Validation chain of `mdz_ansi_dyn_compare`, in the order documented in
`mdz_ansi_dyn.h`. -/
def compareChecks (s : mdz_AnsiDyn) (nLeftPos : Nat)
    (pcItems : Option (List Nat)) : Option mdz_error :=
  if s.capacity < s.size then some .MDZ_ERROR_BIG_SIZE
  else if ¬ terminatorOk s then some .MDZ_ERROR_TERMINATOR
  else
    match pcItems with
    | Option.none => some .MDZ_ERROR_ITEMS
    | some items =>
      if items.length = 0 then some .MDZ_ERROR_ZERO_COUNT
      else if s.size ≤ nLeftPos then some .MDZ_ERROR_BIG_LEFT
      else if s.size - nLeftPos < items.length then some .MDZ_ERROR_BIG_COUNT
      else Option.none

/-- Modelled from the spec: `mdz_ansi_dyn_compare` (implementation
translation unit absent from the tree).  Byte-wise comparison of the content
from `nLeftPos` on against the item bytes, full-length or prefix-limited; per
the header the result is `MDZ_ANSI_COMPARE_EQUAL` or
`MDZ_ANSI_COMPARE_NONEQUAL` (the non-equal result is also used on a
validation failure, reported through the error output). -/
def mdz_ansi_dyn_compare (psAnsi : Option mdz_AnsiDyn) (nLeftPos : Nat)
    (pcItems : Option (List Nat)) (bPartialCompare : Bool) :
    mdz_ansi_compare_result × mdz_error :=
  match psAnsi with
  | Option.none => (.MDZ_ANSI_COMPARE_NONEQUAL, .MDZ_ERROR_DATA)
  | some s =>
    match compareChecks s nLeftPos pcItems with
    | some e => (.MDZ_ANSI_COMPARE_NONEQUAL, e)
    | Option.none =>
      let items := pcItems.getD []
      let eq :=
        if bPartialCompare then
          ((liveOf s).drop nLeftPos).take items.length = items
        else (liveOf s).drop nLeftPos = items
      if eq then (.MDZ_ANSI_COMPARE_EQUAL, .MDZ_ERROR_NONE)
      else (.MDZ_ANSI_COMPARE_NONEQUAL, .MDZ_ERROR_NONE)

/-- The live content produced by a replace call: every occurrence of the
`before` bytes inside the window substituted by the `after` bytes, scanning
from the requested direction. -/
def replaceResultLive (s : mdz_AnsiDyn) (nLeftPos nRightPos : Nat)
    (nBefore nAfter : List Nat) (bFromLeft : Bool) : List Nat :=
  spliceWindow s nLeftPos nRightPos
    (fun w => if bFromLeft then replaceAllL w nBefore nAfter
              else replaceAllR w nBefore nAfter)

/-- Validation chain of `mdz_ansi_dyn_replace`, in the order documented in
`mdz_ansi_dyn.h`; only the dual-pass replacement type is supported, and the
final size of the dual-pass computation decides the growth preconditions
before any byte is mutated. -/
def replaceChecks (caps : AllocFunctions) (s : mdz_AnsiDyn)
    (nLeftPos nRightPos : Nat) (pcItemsBefore : Option (Nat × List Nat))
    (pcItemsAfter : Option (Nat × List Nat)) (bFromLeft : Bool)
    (enReplacementType : mdz_ansi_replace_type) : Option mdz_error :=
  if s.capacity = 0 then some .MDZ_ERROR_CAPACITY
  else if s.capacity < s.size then some .MDZ_ERROR_BIG_SIZE
  else if s.size = 0 then some .MDZ_ERROR_ZERO_SIZE
  else if ¬ terminatorOk s then some .MDZ_ERROR_TERMINATOR
  else
    match pcItemsBefore with
    | Option.none => some .MDZ_ERROR_ITEMS
    | some (nBeforeAddr, nBefore) =>
      if nBefore.length = 0 then some .MDZ_ERROR_ZERO_COUNT
      else if s.size ≤ nRightPos then some .MDZ_ERROR_BIG_RIGHT
      else if nRightPos < nLeftPos then some .MDZ_ERROR_BIG_LEFT
      else if nRightPos + 1 - nLeftPos < nBefore.length then
        some .MDZ_ERROR_BIG_COUNT
      else if enReplacementType ≠ .MDZ_ANSI_REPLACE_DUAL then
        some .MDZ_ERROR_REPLACEMENT_TYPE
      else
        let nAfterAddr := (pcItemsAfter.getD (0, [])).1
        let nAfter := (pcItemsAfter.getD (0, [])).2
        if itemsOverlap s.addr (s.addr + s.size) nBeforeAddr nBefore.length ∨
            itemsOverlap s.addr (s.addr + s.size) nAfterAddr nAfter.length then
          some .MDZ_ERROR_OVERLAP
        else
          let nl := replaceResultLive s nLeftPos nRightPos nBefore nAfter
                      bFromLeft
          if itemsOverlap s.addr (s.addr + nl.length) nBeforeAddr
              nBefore.length ∨
              itemsOverlap s.addr (s.addr + nl.length) nAfterAddr
                nAfter.length then
            some .MDZ_ERROR_OVERLAP_REPLACE
          else if nl.length ≤ s.capacity then Option.none
          else if s.attached then some .MDZ_ERROR_ATTACHED
          else if ¬ caps.pReallocFunc then some .MDZ_ERROR_REALLOC_FUNC
          else Option.none

/-- Modelled from the spec: `mdz_ansi_dyn_replace` (implementation
translation unit absent from the tree).  Dual-pass replacement: the final
size is computed first and the growth preconditions are decided atomically
before any byte is mutated; per the header only `MDZ_ANSI_REPLACE_DUAL` is
supported, a different replacement type is rejected. -/
def mdz_ansi_dyn_replace (caps : AllocFunctions) (ppsAnsi : Option mdz_AnsiDyn)
    (nLeftPos nRightPos : Nat) (pcItemsBefore : Option (Nat × List Nat))
    (pcItemsAfter : Option (Nat × List Nat)) (bFromLeft : Bool)
    (enReplacementType : mdz_ansi_replace_type) :
    mdz_error × Option mdz_AnsiDyn :=
  match ppsAnsi with
  | Option.none => (.MDZ_ERROR_DATA, Option.none)
  | some s =>
    match replaceChecks caps s nLeftPos nRightPos pcItemsBefore pcItemsAfter
        bFromLeft enReplacementType with
    | some e => (e, some s)
    | Option.none =>
      let nBefore := (pcItemsBefore.getD (0, [])).2
      let nAfter := (pcItemsAfter.getD (0, [])).2
      let nl := replaceResultLive s nLeftPos nRightPos nBefore nAfter bFromLeft
      if nl.length ≤ s.capacity then (.MDZ_ERROR_NONE, some (setLive s nl))
      else (.MDZ_ERROR_NONE, some (setLive (growTo s nl.length) nl))

/-- The two handle invariants re-established by every successful mutation:
the terminator byte at `Data[Size]` and the bound `Size ≤ Capacity`. -/
def GoodPost (s : mdz_AnsiDyn) : Prop := terminatorOk s ∧ s.size ≤ s.capacity

theorem setLive_terminator (s : mdz_AnsiDyn) (nl : List Nat) :
    terminatorOk (setLive s nl) := by
  unfold terminatorOk setLive
  simp only
  rw [List.getD_append_right _ _ _ _ (le_refl _)]
  simp

theorem setLive_good (s : mdz_AnsiDyn) (nl : List Nat)
    (h : nl.length ≤ s.capacity) : GoodPost (setLive s nl) :=
  ⟨setLive_terminator s nl, h⟩

theorem liveOf_setLive (s : mdz_AnsiDyn) (nl : List Nat) :
    liveOf (setLive s nl) = nl := by
  unfold liveOf setLive
  simp only
  exact List.take_left nl _

theorem terminatorOk_size_lt (s : mdz_AnsiDyn) (h : terminatorOk s) :
    s.size < s.buf.length := by
  by_contra hc
  unfold terminatorOk at h
  rw [List.getD_eq_default _ _ (by omega)] at h
  exact one_ne_zero h

theorem length_liveOf (s : mdz_AnsiDyn) (h : s.size ≤ s.buf.length) :
    (liveOf s).length = s.size := by
  unfold liveOf
  simp [List.length_take]
  omega

theorem removeAllLF_length_le (fuel : Nat) :
    ∀ w pat : List Nat, (removeAllLF fuel w pat).length ≤ w.length := by
  induction fuel with
  | zero => intro w pat; simp [removeAllLF]
  | succ fuel ih =>
    intro w pat
    unfold removeAllLF
    match w with
    | [] => simp
    | a :: rest =>
      simp only
      split
      · calc (removeAllLF fuel ((a :: rest).drop pat.length) pat).length
            ≤ ((a :: rest).drop pat.length).length := ih _ _
          _ ≤ (a :: rest).length := by simp [List.length_drop]
      · simpa using ih rest pat

theorem removeAllL_length_le (w pat : List Nat) :
    (removeAllL w pat).length ≤ w.length := removeAllLF_length_le _ _ _

theorem removeAllR_length_le (w pat : List Nat) :
    (removeAllR w pat).length ≤ w.length := by
  unfold removeAllR
  calc (removeAllL w.reverse pat.reverse).reverse.length
      = (removeAllL w.reverse pat.reverse).length := by simp
    _ ≤ w.reverse.length := removeAllL_length_le _ _
    _ = w.length := by simp

theorem dropWhile_length_le (p : Nat → Bool) (w : List Nat) :
    (w.dropWhile p).length ≤ w.length :=
  (List.dropWhile_sublist p).length_le

theorem spliceWindow_length_le (s : mdz_AnsiDyn) (l r : Nat)
    (f : List Nat → List Nat) (hf : ∀ w, (f w).length ≤ w.length)
    (hb : s.size ≤ s.buf.length) (hlr : l ≤ r) (hr : r < s.size) :
    (spliceWindow s l r f).length ≤ s.size := by
  unfold spliceWindow
  have hl := length_liveOf s hb
  have h1 := hf (((liveOf s).drop l).take (r + 1 - l))
  have h2 : (((liveOf s).drop l).take (r + 1 - l)).length ≤ (liveOf s).length - l := by
    simp only [List.length_take, List.length_drop]
    omega
  have h2' : (((liveOf s).drop l).take (r + 1 - l)).length ≤ r + 1 - l := by
    simp only [List.length_take, List.length_drop]
    omega
  have h3 : ((liveOf s).take l).length ≤ l := by
    simp only [List.length_take]
    omega
  simp only [List.length_append, List.length_drop]
  omega


theorem insertChecks_none_facts (caps : AllocFunctions) (s : mdz_AnsiDyn)
    (l : Nat) (pcItems : Option (Nat × List Nat))
    (h : insertChecks caps s l pcItems = Option.none) :
    ∃ ia items, pcItems = some (ia, items) ∧ s.capacity ≠ 0 ∧
      terminatorOk s ∧ items ≠ [] ∧ l ≤ s.size ∧
      ¬ itemsOverlap s.addr (s.addr + s.size + items.length) ia items.length ∧
      (s.size + items.length ≤ s.capacity ∨
        (s.attached = false ∧ caps.pReallocFunc = true)) := by
  match pcItems with
  | Option.none =>
    unfold insertChecks at h
    split_ifs at h <;> simp at h
  | some (ia, items) =>
    refine ⟨ia, items, rfl, ?_⟩
    unfold insertChecks at h
    repeat' split_ifs at h <;> try simp at h
    all_goals
      refine ⟨by assumption, by assumption, by assumption, by omega,
        by assumption, ?_⟩
    all_goals
      first
        | exact Or.inl (by assumption)
        | exact Or.inr ⟨by simpa using (by assumption : ¬ s.attached = true),
            by assumption⟩

theorem removeFromChecks_none_facts (s : mdz_AnsiDyn) (l n : Nat)
    (h : removeFromChecks s l n = Option.none) :
    s.size ≤ s.capacity ∧ terminatorOk s ∧ s.size ≠ 0 ∧ n ≠ 0 ∧
      l < s.size ∧ n ≤ s.size - l := by
  unfold removeFromChecks at h
  repeat' split_ifs at h <;> try simp at h
  exact ⟨by omega, by assumption, by assumption, by assumption, by omega,
    by omega⟩

theorem rangeChecks_none_facts (s : mdz_AnsiDyn) (l r : Nat)
    (pcItems : Option (List Nat)) (big : Bool)
    (h : rangeChecks s l r pcItems big = Option.none) :
    ∃ items, pcItems = some items ∧ s.size ≤ s.capacity ∧ terminatorOk s ∧
      s.size ≠ 0 ∧ items ≠ [] ∧ r < s.size ∧ l ≤ r ∧
      (big = true → items.length ≤ r + 1 - l) := by
  match pcItems with
  | Option.none =>
    unfold rangeChecks at h
    split_ifs at h <;> simp at h
  | some items =>
    refine ⟨items, rfl, ?_⟩
    unfold rangeChecks at h
    repeat' split_ifs at h <;> try simp at h
    all_goals
      refine ⟨by omega, by assumption, by assumption, by assumption, by omega,
        by omega, ?_⟩
    all_goals
      intro hb
      first
        | (have hx := not_and.mp (by assumption :
            ¬ (big = true ∧ r + 1 - l < items.length)) hb
           omega)
        | omega

theorem findChecks_none_facts (s : mdz_AnsiDyn) (l r : Nat)
    (pcItems : Option (List Nat))
    (h : findChecks s l r pcItems = Option.none) :
    ∃ items, pcItems = some items ∧ s.size ≤ s.capacity ∧ terminatorOk s ∧
      items ≠ [] ∧ r < s.size ∧ l ≤ r ∧ items.length ≤ r + 1 - l := by
  match pcItems with
  | Option.none =>
    unfold findChecks at h
    split_ifs at h <;> simp at h
  | some items =>
    refine ⟨items, rfl, ?_⟩
    unfold findChecks at h
    repeat' split_ifs at h <;> try simp at h
    exact ⟨by omega, by assumption, by assumption, by omega, by omega,
      by omega⟩

theorem compareChecks_none_facts (s : mdz_AnsiDyn) (l : Nat)
    (pcItems : Option (List Nat))
    (h : compareChecks s l pcItems = Option.none) :
    ∃ items, pcItems = some items ∧ s.size ≤ s.capacity ∧ terminatorOk s ∧
      items ≠ [] ∧ l < s.size ∧ items.length ≤ s.size - l := by
  match pcItems with
  | Option.none =>
    unfold compareChecks at h
    split_ifs at h <;> simp at h
  | some items =>
    refine ⟨items, rfl, ?_⟩
    unfold compareChecks at h
    repeat' split_ifs at h <;> try simp at h
    exact ⟨by omega, by assumption, by assumption, by omega, by omega⟩

theorem reverseChecks_none_facts (s : mdz_AnsiDyn) (l r : Nat)
    (h : reverseChecks s l r = Option.none) :
    s.size ≤ s.capacity ∧ terminatorOk s ∧ r < s.size ∧ l < r := by
  unfold reverseChecks at h
  repeat' split_ifs at h <;> try simp at h
  exact ⟨by omega, by assumption, by omega, by omega⟩

theorem replaceChecks_none_facts (caps : AllocFunctions) (s : mdz_AnsiDyn)
    (l r : Nat) (pcItemsBefore pcItemsAfter : Option (Nat × List Nat))
    (bFromLeft : Bool) (ty : mdz_ansi_replace_type)
    (h : replaceChecks caps s l r pcItemsBefore pcItemsAfter bFromLeft ty =
      Option.none) :
    ∃ ba nBefore, pcItemsBefore = some (ba, nBefore) ∧ s.capacity ≠ 0 ∧
      s.size ≤ s.capacity ∧ s.size ≠ 0 ∧ terminatorOk s ∧ nBefore ≠ [] ∧
      r < s.size ∧ l ≤ r ∧ nBefore.length ≤ r + 1 - l ∧
      ty = .MDZ_ANSI_REPLACE_DUAL ∧
      ((replaceResultLive s l r nBefore ((pcItemsAfter.getD (0, [])).2)
          bFromLeft).length ≤ s.capacity ∨
        (s.attached = false ∧ caps.pReallocFunc = true)) := by
  match pcItemsBefore with
  | Option.none =>
    unfold replaceChecks at h
    dsimp only at h
    repeat' (split at h <;> try exact Option.noConfusion h)
  | some (ba, nBefore) =>
    unfold replaceChecks at h
    dsimp only at h
    generalize hnl : replaceResultLive s l r nBefore
      ((pcItemsAfter.getD (0, [])).2) bFromLeft = nl at h
    by_cases h1 : s.capacity = 0
    · rw [if_pos h1] at h; exact Option.noConfusion h
    rw [if_neg h1] at h
    by_cases h2 : s.capacity < s.size
    · rw [if_pos h2] at h; exact Option.noConfusion h
    rw [if_neg h2] at h
    by_cases h3 : s.size = 0
    · rw [if_pos h3] at h; exact Option.noConfusion h
    rw [if_neg h3] at h
    by_cases h4 : terminatorOk s
    · rw [if_neg (not_not_intro h4)] at h
      by_cases h5 : nBefore.length = 0
      · rw [if_pos h5] at h; exact Option.noConfusion h
      rw [if_neg h5] at h
      by_cases h6 : s.size ≤ r
      · rw [if_pos h6] at h; exact Option.noConfusion h
      rw [if_neg h6] at h
      by_cases h7 : r < l
      · rw [if_pos h7] at h; exact Option.noConfusion h
      rw [if_neg h7] at h
      by_cases h8 : r + 1 - l < nBefore.length
      · rw [if_pos h8] at h; exact Option.noConfusion h
      rw [if_neg h8] at h
      by_cases h9 : ty ≠ mdz_ansi_replace_type.MDZ_ANSI_REPLACE_DUAL
      · rw [if_pos h9] at h; exact Option.noConfusion h
      rw [if_neg h9] at h
      refine ⟨ba, nBefore, rfl, h1, by omega, h3, h4, by simpa using h5,
        by omega, by omega, by omega, not_not.mp h9, ?_⟩
      split at h
      · exact Option.noConfusion h
      split at h
      · exact Option.noConfusion h
      by_cases h10 : nl.length ≤ s.capacity
      · exact Or.inl (by rw [hnl]; exact h10)
      rw [if_neg h10] at h
      by_cases h11 : s.attached = true
      · rw [if_pos h11] at h; exact Option.noConfusion h
      rw [if_neg h11] at h
      by_cases h12 : caps.pReallocFunc = true
      · exact Or.inr ⟨by simpa using h11, h12⟩
      · rw [if_pos (by simpa using h12)] at h
        exact Option.noConfusion h
    · rw [if_pos (by simpa using h4)] at h
      exact Option.noConfusion h

theorem insertChecks_ne_none (caps : AllocFunctions) (s : mdz_AnsiDyn)
    (l : Nat) (pcItems : Option (Nat × List Nat)) :
    insertChecks caps s l pcItems ≠ some .MDZ_ERROR_NONE := by
  intro hx
  match pcItems with
  | Option.none =>
    unfold insertChecks at hx
    split_ifs at hx <;> simp at hx
  | some (ia, items) =>
    unfold insertChecks at hx
    repeat' split_ifs at hx <;> simp at hx

theorem removeFromChecks_ne_none (s : mdz_AnsiDyn) (l n : Nat) :
    removeFromChecks s l n ≠ some .MDZ_ERROR_NONE := by
  intro hx
  unfold removeFromChecks at hx
  repeat' split_ifs at hx <;> simp at hx

theorem rangeChecks_ne_none (s : mdz_AnsiDyn) (l r : Nat)
    (pcItems : Option (List Nat)) (big : Bool) :
    rangeChecks s l r pcItems big ≠ some .MDZ_ERROR_NONE := by
  intro hx
  match pcItems with
  | Option.none =>
    unfold rangeChecks at hx
    split_ifs at hx <;> simp at hx
  | some items =>
    unfold rangeChecks at hx
    repeat' split_ifs at hx <;> simp at hx

theorem findChecks_ne_none (s : mdz_AnsiDyn) (l r : Nat)
    (pcItems : Option (List Nat)) :
    findChecks s l r pcItems ≠ some .MDZ_ERROR_NONE := by
  intro hx
  match pcItems with
  | Option.none =>
    unfold findChecks at hx
    split_ifs at hx <;> simp at hx
  | some items =>
    unfold findChecks at hx
    repeat' split_ifs at hx <;> simp at hx

theorem compareChecks_ne_none (s : mdz_AnsiDyn) (l : Nat)
    (pcItems : Option (List Nat)) :
    compareChecks s l pcItems ≠ some .MDZ_ERROR_NONE := by
  intro hx
  match pcItems with
  | Option.none =>
    unfold compareChecks at hx
    split_ifs at hx <;> simp at hx
  | some items =>
    unfold compareChecks at hx
    repeat' split_ifs at hx <;> simp at hx

theorem reverseChecks_ne_none (s : mdz_AnsiDyn) (l r : Nat) :
    reverseChecks s l r ≠ some .MDZ_ERROR_NONE := by
  intro hx
  unfold reverseChecks at hx
  repeat' split_ifs at hx <;> simp at hx

theorem replaceChecks_ne_none (caps : AllocFunctions) (s : mdz_AnsiDyn)
    (l r : Nat) (pcItemsBefore pcItemsAfter : Option (Nat × List Nat))
    (bFromLeft : Bool) (ty : mdz_ansi_replace_type) :
    replaceChecks caps s l r pcItemsBefore pcItemsAfter bFromLeft ty ≠
      some .MDZ_ERROR_NONE := by
  intro hx
  match pcItemsBefore with
  | Option.none =>
    unfold replaceChecks at hx
    dsimp only at hx
    repeat' (split at hx <;>
      try exact mdz_error.noConfusion (Option.some.inj hx))
  | some (ba, nBefore) =>
    unfold replaceChecks at hx
    dsimp only at hx
    generalize hnl : replaceResultLive s l r nBefore
      ((pcItemsAfter.getD (0, [])).2) bFromLeft = nl at hx
    by_cases h1 : s.capacity = 0
    · rw [if_pos h1] at hx; exact mdz_error.noConfusion (Option.some.inj hx)
    rw [if_neg h1] at hx
    by_cases h2 : s.capacity < s.size
    · rw [if_pos h2] at hx; exact mdz_error.noConfusion (Option.some.inj hx)
    rw [if_neg h2] at hx
    by_cases h3 : s.size = 0
    · rw [if_pos h3] at hx; exact mdz_error.noConfusion (Option.some.inj hx)
    rw [if_neg h3] at hx
    by_cases h4 : terminatorOk s
    · rw [if_neg (not_not_intro h4)] at hx
      by_cases h5 : nBefore.length = 0
      · rw [if_pos h5] at hx; exact mdz_error.noConfusion (Option.some.inj hx)
      rw [if_neg h5] at hx
      by_cases h6 : s.size ≤ r
      · rw [if_pos h6] at hx; exact mdz_error.noConfusion (Option.some.inj hx)
      rw [if_neg h6] at hx
      by_cases h7 : r < l
      · rw [if_pos h7] at hx; exact mdz_error.noConfusion (Option.some.inj hx)
      rw [if_neg h7] at hx
      by_cases h8 : r + 1 - l < nBefore.length
      · rw [if_pos h8] at hx; exact mdz_error.noConfusion (Option.some.inj hx)
      rw [if_neg h8] at hx
      by_cases h9 : ty ≠ mdz_ansi_replace_type.MDZ_ANSI_REPLACE_DUAL
      · rw [if_pos h9] at hx; exact mdz_error.noConfusion (Option.some.inj hx)
      rw [if_neg h9] at hx
      split at hx
      · exact mdz_error.noConfusion (Option.some.inj hx)
      split at hx
      · exact mdz_error.noConfusion (Option.some.inj hx)
      by_cases h10 : nl.length ≤ s.capacity
      · rw [if_pos h10] at hx; exact Option.noConfusion hx
      rw [if_neg h10] at hx
      by_cases h11 : s.attached = true
      · rw [if_pos h11] at hx; exact mdz_error.noConfusion (Option.some.inj hx)
      rw [if_neg h11] at hx
      by_cases h12 : ¬ caps.pReallocFunc = true
      · rw [if_pos h12] at hx; exact mdz_error.noConfusion (Option.some.inj hx)
      · rw [if_neg h12] at hx; exact Option.noConfusion hx
    · rw [if_pos (by simpa using h4)] at hx
      exact mdz_error.noConfusion (Option.some.inj hx)

theorem insert_frozen (caps : AllocFunctions) (p : Option mdz_AnsiDyn)
    (l : Nat) (it : Option (Nat × List Nat))
    (h : (mdz_ansi_dyn_insert caps p l it).1 ≠ .MDZ_ERROR_NONE) :
    (mdz_ansi_dyn_insert caps p l it).2 = p := by
  match p with
  | Option.none => rfl
  | some s =>
    cases hc : insertChecks caps s l it with
    | some e => simp [mdz_ansi_dyn_insert, hc]
    | none => exact absurd (by simp [mdz_ansi_dyn_insert, hc]) h

theorem insert_success (caps : AllocFunctions) (p : Option mdz_AnsiDyn)
    (l : Nat) (it : Option (Nat × List Nat)) (s' : mdz_AnsiDyn)
    (h : mdz_ansi_dyn_insert caps p l it = (.MDZ_ERROR_NONE, some s')) :
    ∃ s, p = some s ∧ insertChecks caps s l it = Option.none ∧
      s' = insertApply s l ((it.getD (0, [])).2) := by
  match p with
  | Option.none => simp [mdz_ansi_dyn_insert] at h
  | some s =>
    cases hc : insertChecks caps s l it with
    | some e =>
      exfalso
      have hr : mdz_ansi_dyn_insert caps (some s) l it = (e, some s) := by
        simp [mdz_ansi_dyn_insert, hc]
      rw [hr] at h
      injection h with h1 h2
      rw [h1] at hc
      exact insertChecks_ne_none caps s l it hc
    | none =>
      have hr : mdz_ansi_dyn_insert caps (some s) l it =
          (.MDZ_ERROR_NONE, some (insertApply s l ((it.getD (0, [])).2))) := by
        simp [mdz_ansi_dyn_insert, hc]
      rw [hr] at h
      injection h with h1 h2
      injection h2 with h3
      exact ⟨s, rfl, hc, h3.symm⟩

theorem removeFrom_frozen (p : Option mdz_AnsiDyn) (l n : Nat)
    (h : (mdz_ansi_dyn_removeFrom p l n).1 ≠ .MDZ_ERROR_NONE) :
    (mdz_ansi_dyn_removeFrom p l n).2 = p := by
  match p with
  | Option.none => rfl
  | some s =>
    cases hc : removeFromChecks s l n with
    | some e => simp [mdz_ansi_dyn_removeFrom, hc]
    | none => exact absurd (by simp [mdz_ansi_dyn_removeFrom, hc]) h

theorem removeFrom_success (p : Option mdz_AnsiDyn) (l n : Nat)
    (s' : mdz_AnsiDyn)
    (h : mdz_ansi_dyn_removeFrom p l n = (.MDZ_ERROR_NONE, some s')) :
    ∃ s, p = some s ∧ removeFromChecks s l n = Option.none ∧
      s' = setLive s ((liveOf s).take l ++ (liveOf s).drop (l + n)) := by
  match p with
  | Option.none => simp [mdz_ansi_dyn_removeFrom] at h
  | some s =>
    cases hc : removeFromChecks s l n with
    | some e =>
      exfalso
      have hr : mdz_ansi_dyn_removeFrom (some s) l n = (e, some s) := by
        simp [mdz_ansi_dyn_removeFrom, hc]
      rw [hr] at h
      injection h with h1 h2
      rw [h1] at hc
      exact removeFromChecks_ne_none s l n hc
    | none =>
      have hr : mdz_ansi_dyn_removeFrom (some s) l n = (.MDZ_ERROR_NONE,
          some (setLive s ((liveOf s).take l ++ (liveOf s).drop (l + n)))) := by
        simp [mdz_ansi_dyn_removeFrom, hc]
      rw [hr] at h
      injection h with h1 h2
      injection h2 with h3
      exact ⟨s, rfl, hc, h3.symm⟩

theorem remove_frozen (p : Option mdz_AnsiDyn) (l r : Nat)
    (it : Option (List Nat)) (b : Bool)
    (h : (mdz_ansi_dyn_remove p l r it b).1 ≠ .MDZ_ERROR_NONE) :
    (mdz_ansi_dyn_remove p l r it b).2 = p := by
  match p with
  | Option.none => rfl
  | some s =>
    cases hc : rangeChecks s l r it true with
    | some e => simp [mdz_ansi_dyn_remove, hc]
    | none => exact absurd (by simp [mdz_ansi_dyn_remove, hc]) h

theorem remove_success (p : Option mdz_AnsiDyn) (l r : Nat)
    (it : Option (List Nat)) (b : Bool) (s' : mdz_AnsiDyn)
    (h : mdz_ansi_dyn_remove p l r it b = (.MDZ_ERROR_NONE, some s')) :
    ∃ s, p = some s ∧ rangeChecks s l r it true = Option.none ∧
      s' = setLive s (spliceWindow s l r (fun w =>
        if b then removeAllL w (it.getD []) else removeAllR w (it.getD []))) := by
  match p with
  | Option.none => simp [mdz_ansi_dyn_remove] at h
  | some s =>
    cases hc : rangeChecks s l r it true with
    | some e =>
      exfalso
      have hr : mdz_ansi_dyn_remove (some s) l r it b = (e, some s) := by
        simp [mdz_ansi_dyn_remove, hc]
      rw [hr] at h
      injection h with h1 h2
      rw [h1] at hc
      exact rangeChecks_ne_none s l r it true hc
    | none =>
      have hr : mdz_ansi_dyn_remove (some s) l r it b = (.MDZ_ERROR_NONE,
          some (setLive s (spliceWindow s l r (fun w =>
            if b then removeAllL w (it.getD []) else
              removeAllR w (it.getD []))))) := by
        simp [mdz_ansi_dyn_remove, hc]
      rw [hr] at h
      injection h with h1 h2
      injection h2 with h3
      exact ⟨s, rfl, hc, h3.symm⟩

theorem trimLeft_frozen (p : Option mdz_AnsiDyn) (l r : Nat)
    (it : Option (List Nat))
    (h : (mdz_ansi_dyn_trimLeft p l r it).1 ≠ .MDZ_ERROR_NONE) :
    (mdz_ansi_dyn_trimLeft p l r it).2 = p := by
  match p with
  | Option.none => rfl
  | some s =>
    cases hc : rangeChecks s l r it false with
    | some e => simp [mdz_ansi_dyn_trimLeft, hc]
    | none => exact absurd (by simp [mdz_ansi_dyn_trimLeft, hc]) h

theorem trimLeft_success (p : Option mdz_AnsiDyn) (l r : Nat)
    (it : Option (List Nat)) (s' : mdz_AnsiDyn)
    (h : mdz_ansi_dyn_trimLeft p l r it = (.MDZ_ERROR_NONE, some s')) :
    ∃ s, p = some s ∧ rangeChecks s l r it false = Option.none ∧
      s' = setLive s (spliceWindow s l r (fun w =>
        w.dropWhile (fun c => (it.getD []).contains c))) := by
  match p with
  | Option.none => simp [mdz_ansi_dyn_trimLeft] at h
  | some s =>
    cases hc : rangeChecks s l r it false with
    | some e =>
      exfalso
      have hr : mdz_ansi_dyn_trimLeft (some s) l r it = (e, some s) := by
        simp [mdz_ansi_dyn_trimLeft, hc]
      rw [hr] at h
      injection h with h1 h2
      rw [h1] at hc
      exact rangeChecks_ne_none s l r it false hc
    | none =>
      have hr : mdz_ansi_dyn_trimLeft (some s) l r it = (.MDZ_ERROR_NONE,
          some (setLive s (spliceWindow s l r (fun w =>
            w.dropWhile (fun c => (it.getD []).contains c))))) := by
        simp [mdz_ansi_dyn_trimLeft, hc]
      rw [hr] at h
      injection h with h1 h2
      injection h2 with h3
      exact ⟨s, rfl, hc, h3.symm⟩

theorem trimRight_frozen (p : Option mdz_AnsiDyn) (l r : Nat)
    (it : Option (List Nat))
    (h : (mdz_ansi_dyn_trimRight p l r it).1 ≠ .MDZ_ERROR_NONE) :
    (mdz_ansi_dyn_trimRight p l r it).2 = p := by
  match p with
  | Option.none => rfl
  | some s =>
    cases hc : rangeChecks s l r it false with
    | some e => simp [mdz_ansi_dyn_trimRight, hc]
    | none => exact absurd (by simp [mdz_ansi_dyn_trimRight, hc]) h

theorem trimRight_success (p : Option mdz_AnsiDyn) (l r : Nat)
    (it : Option (List Nat)) (s' : mdz_AnsiDyn)
    (h : mdz_ansi_dyn_trimRight p l r it = (.MDZ_ERROR_NONE, some s')) :
    ∃ s, p = some s ∧ rangeChecks s l r it false = Option.none ∧
      s' = setLive s (spliceWindow s l r (fun w =>
        (w.reverse.dropWhile (fun c => (it.getD []).contains c)).reverse)) := by
  match p with
  | Option.none => simp [mdz_ansi_dyn_trimRight] at h
  | some s =>
    cases hc : rangeChecks s l r it false with
    | some e =>
      exfalso
      have hr : mdz_ansi_dyn_trimRight (some s) l r it = (e, some s) := by
        simp [mdz_ansi_dyn_trimRight, hc]
      rw [hr] at h
      injection h with h1 h2
      rw [h1] at hc
      exact rangeChecks_ne_none s l r it false hc
    | none =>
      have hr : mdz_ansi_dyn_trimRight (some s) l r it = (.MDZ_ERROR_NONE,
          some (setLive s (spliceWindow s l r (fun w =>
            (w.reverse.dropWhile
              (fun c => (it.getD []).contains c)).reverse)))) := by
        simp [mdz_ansi_dyn_trimRight, hc]
      rw [hr] at h
      injection h with h1 h2
      injection h2 with h3
      exact ⟨s, rfl, hc, h3.symm⟩

theorem trim_frozen (p : Option mdz_AnsiDyn) (l r : Nat)
    (it : Option (List Nat))
    (h : (mdz_ansi_dyn_trim p l r it).1 ≠ .MDZ_ERROR_NONE) :
    (mdz_ansi_dyn_trim p l r it).2 = p := by
  match p with
  | Option.none => rfl
  | some s =>
    cases hc : rangeChecks s l r it false with
    | some e => simp [mdz_ansi_dyn_trim, hc]
    | none => exact absurd (by simp [mdz_ansi_dyn_trim, hc]) h

theorem trim_success (p : Option mdz_AnsiDyn) (l r : Nat)
    (it : Option (List Nat)) (s' : mdz_AnsiDyn)
    (h : mdz_ansi_dyn_trim p l r it = (.MDZ_ERROR_NONE, some s')) :
    ∃ s, p = some s ∧ rangeChecks s l r it false = Option.none ∧
      s' = setLive s (spliceWindow s l r (fun w =>
        ((w.dropWhile (fun c => (it.getD []).contains c)).reverse.dropWhile
          (fun c => (it.getD []).contains c)).reverse)) := by
  match p with
  | Option.none => simp [mdz_ansi_dyn_trim] at h
  | some s =>
    cases hc : rangeChecks s l r it false with
    | some e =>
      exfalso
      have hr : mdz_ansi_dyn_trim (some s) l r it = (e, some s) := by
        simp [mdz_ansi_dyn_trim, hc]
      rw [hr] at h
      injection h with h1 h2
      rw [h1] at hc
      exact rangeChecks_ne_none s l r it false hc
    | none =>
      have hr : mdz_ansi_dyn_trim (some s) l r it = (.MDZ_ERROR_NONE,
          some (setLive s (spliceWindow s l r (fun w =>
            ((w.dropWhile (fun c => (it.getD []).contains c)).reverse.dropWhile
              (fun c => (it.getD []).contains c)).reverse)))) := by
        simp [mdz_ansi_dyn_trim, hc]
      rw [hr] at h
      injection h with h1 h2
      injection h2 with h3
      exact ⟨s, rfl, hc, h3.symm⟩

theorem reverse_frozen (p : Option mdz_AnsiDyn) (l r : Nat)
    (h : (mdz_ansi_dyn_reverse p l r).1 ≠ .MDZ_ERROR_NONE) :
    (mdz_ansi_dyn_reverse p l r).2 = p := by
  match p with
  | Option.none => rfl
  | some s =>
    cases hc : reverseChecks s l r with
    | some e => simp [mdz_ansi_dyn_reverse, hc]
    | none => exact absurd (by simp [mdz_ansi_dyn_reverse, hc]) h

theorem reverse_success (p : Option mdz_AnsiDyn) (l r : Nat) (s' : mdz_AnsiDyn)
    (h : mdz_ansi_dyn_reverse p l r = (.MDZ_ERROR_NONE, some s')) :
    ∃ s, p = some s ∧ reverseChecks s l r = Option.none ∧
      s' = setLive s (spliceWindow s l r List.reverse) := by
  match p with
  | Option.none => simp [mdz_ansi_dyn_reverse] at h
  | some s =>
    cases hc : reverseChecks s l r with
    | some e =>
      exfalso
      have hr : mdz_ansi_dyn_reverse (some s) l r = (e, some s) := by
        simp [mdz_ansi_dyn_reverse, hc]
      rw [hr] at h
      injection h with h1 h2
      rw [h1] at hc
      exact reverseChecks_ne_none s l r hc
    | none =>
      have hr : mdz_ansi_dyn_reverse (some s) l r = (.MDZ_ERROR_NONE,
          some (setLive s (spliceWindow s l r List.reverse))) := by
        simp [mdz_ansi_dyn_reverse, hc]
      rw [hr] at h
      injection h with h1 h2
      injection h2 with h3
      exact ⟨s, rfl, hc, h3.symm⟩

theorem replace_frozen (caps : AllocFunctions) (p : Option mdz_AnsiDyn)
    (l r : Nat) (pb pa : Option (Nat × List Nat)) (b : Bool)
    (ty : mdz_ansi_replace_type)
    (h : (mdz_ansi_dyn_replace caps p l r pb pa b ty).1 ≠ .MDZ_ERROR_NONE) :
    (mdz_ansi_dyn_replace caps p l r pb pa b ty).2 = p := by
  match p with
  | Option.none => rfl
  | some s =>
    cases hc : replaceChecks caps s l r pb pa b ty with
    | some e => simp [mdz_ansi_dyn_replace, hc]
    | none =>
      exact absurd (by simp only [mdz_ansi_dyn_replace]
                       rw [hc]
                       dsimp only
                       split_ifs <;> rfl) h

theorem replace_success (caps : AllocFunctions) (p : Option mdz_AnsiDyn)
    (l r : Nat) (pb pa : Option (Nat × List Nat)) (b : Bool)
    (ty : mdz_ansi_replace_type) (s' : mdz_AnsiDyn)
    (h : mdz_ansi_dyn_replace caps p l r pb pa b ty =
      (.MDZ_ERROR_NONE, some s')) :
    ∃ s, p = some s ∧ replaceChecks caps s l r pb pa b ty = Option.none ∧
      s' = (if (replaceResultLive s l r ((pb.getD (0, [])).2)
              ((pa.getD (0, [])).2) b).length ≤ s.capacity then
          setLive s (replaceResultLive s l r ((pb.getD (0, [])).2)
            ((pa.getD (0, [])).2) b)
        else
          setLive (growTo s (replaceResultLive s l r ((pb.getD (0, [])).2)
              ((pa.getD (0, [])).2) b).length)
            (replaceResultLive s l r ((pb.getD (0, [])).2)
              ((pa.getD (0, [])).2) b)) := by
  match p with
  | Option.none => simp [mdz_ansi_dyn_replace] at h
  | some s =>
    cases hc : replaceChecks caps s l r pb pa b ty with
    | some e =>
      exfalso
      have hr : mdz_ansi_dyn_replace caps (some s) l r pb pa b ty =
          (e, some s) := by
        simp [mdz_ansi_dyn_replace, hc]
      rw [hr] at h
      injection h with h1 h2
      rw [h1] at hc
      exact replaceChecks_ne_none caps s l r pb pa b ty hc
    | none =>
      have hr : mdz_ansi_dyn_replace caps (some s) l r pb pa b ty =
          (.MDZ_ERROR_NONE,
            some (if (replaceResultLive s l r ((pb.getD (0, [])).2)
                    ((pa.getD (0, [])).2) b).length ≤ s.capacity then
                setLive s (replaceResultLive s l r ((pb.getD (0, [])).2)
                  ((pa.getD (0, [])).2) b)
              else
                setLive (growTo s (replaceResultLive s l r
                    ((pb.getD (0, [])).2) ((pa.getD (0, [])).2) b).length)
                  (replaceResultLive s l r ((pb.getD (0, [])).2)
                    ((pa.getD (0, [])).2) b))) := by
        unfold mdz_ansi_dyn_replace
        dsimp only
        rw [hc]
        dsimp only
        split_ifs <;> rfl
      rw [hr] at h
      injection h with h1 h2
      injection h2 with h3
      exact ⟨s, rfl, hc, h3.symm⟩

theorem setLive_addr (s : mdz_AnsiDyn) (nl : List Nat) :
    (setLive s nl).addr = s.addr := rfl

theorem setLive_capacity (s : mdz_AnsiDyn) (nl : List Nat) :
    (setLive s nl).capacity = s.capacity := rfl

theorem insertApply_len (s : mdz_AnsiDyn) (l : Nat) (items : List Nat)
    (hterm : terminatorOk s) (hl : l ≤ s.size) :
    ((liveOf s).take l ++ items ++ (liveOf s).drop l).length =
      s.size + items.length := by
  have hlt := terminatorOk_size_lt s hterm
  have hL := length_liveOf s (le_of_lt hlt)
  simp only [List.length_append, List.length_take, List.length_drop]
  omega

theorem insertApply_good (s : mdz_AnsiDyn) (l : Nat) (items : List Nat)
    (hterm : terminatorOk s) (hl : l ≤ s.size) :
    GoodPost (insertApply s l items) := by
  unfold insertApply
  dsimp only
  split_ifs with hfit
  · exact setLive_good s _ (by rw [insertApply_len s l items hterm hl]
                               exact hfit)
  · exact setLive_good _ _ (by rw [insertApply_len s l items hterm hl]
                               exact le_refl _)

theorem insertApply_addrcap (s : mdz_AnsiDyn) (l : Nat) (items : List Nat)
    (hfit : s.size + items.length ≤ s.capacity) :
    (insertApply s l items).addr = s.addr ∧
      (insertApply s l items).capacity = s.capacity := by
  unfold insertApply
  dsimp only
  rw [if_pos hfit]
  exact ⟨rfl, rfl⟩

theorem setLive_grow_good (s : mdz_AnsiDyn) (nl : List Nat) :
    GoodPost (if nl.length ≤ s.capacity then setLive s nl
              else setLive (growTo s nl.length) nl) := by
  split_ifs with hf
  · exact setLive_good s nl hf
  · exact setLive_good (growTo s nl.length) nl (le_refl _)

theorem insert_good (caps : AllocFunctions) (p : Option mdz_AnsiDyn) (l : Nat)
    (it : Option (Nat × List Nat)) (s' : mdz_AnsiDyn)
    (h : mdz_ansi_dyn_insert caps p l it = (.MDZ_ERROR_NONE, some s')) :
    GoodPost s' := by
  obtain ⟨s, hp, hc, hs⟩ := insert_success caps p l it s' h
  obtain ⟨ia, items, hit, _, hterm, _, hl, _, _⟩ :=
    insertChecks_none_facts caps s l it hc
  rw [hs]
  exact insertApply_good s l _ hterm hl

theorem removeFrom_good (p : Option mdz_AnsiDyn) (l n : Nat)
    (s' : mdz_AnsiDyn)
    (h : mdz_ansi_dyn_removeFrom p l n = (.MDZ_ERROR_NONE, some s')) :
    GoodPost s' := by
  obtain ⟨s, hp, hc, hs⟩ := removeFrom_success p l n s' h
  obtain ⟨hsc, hterm, _, _, hl, hn⟩ := removeFromChecks_none_facts s l n hc
  rw [hs]
  apply setLive_good
  have hlt := terminatorOk_size_lt s hterm
  have hL := length_liveOf s (le_of_lt hlt)
  simp only [List.length_append, List.length_take, List.length_drop]
  omega

theorem remove_good (p : Option mdz_AnsiDyn) (l r : Nat)
    (it : Option (List Nat)) (b : Bool) (s' : mdz_AnsiDyn)
    (h : mdz_ansi_dyn_remove p l r it b = (.MDZ_ERROR_NONE, some s')) :
    GoodPost s' := by
  obtain ⟨s, hp, hc, hs⟩ := remove_success p l r it b s' h
  obtain ⟨items, hit, hsc, hterm, _, _, hr, hlr, _⟩ :=
    rangeChecks_none_facts s l r it true hc
  rw [hs]
  apply setLive_good
  refine le_trans (spliceWindow_length_le s l r _ ?_
    (le_of_lt (terminatorOk_size_lt s hterm)) hlr hr) hsc
  intro w
  cases b <;> simp only [if_true, if_false, Bool.false_eq_true, ite_false,
    ite_true]
  · exact removeAllR_length_le w _
  · exact removeAllL_length_le w _

theorem trimLeft_good (p : Option mdz_AnsiDyn) (l r : Nat)
    (it : Option (List Nat)) (s' : mdz_AnsiDyn)
    (h : mdz_ansi_dyn_trimLeft p l r it = (.MDZ_ERROR_NONE, some s')) :
    GoodPost s' := by
  obtain ⟨s, hp, hc, hs⟩ := trimLeft_success p l r it s' h
  obtain ⟨items, hit, hsc, hterm, _, _, hr, hlr, _⟩ :=
    rangeChecks_none_facts s l r it false hc
  rw [hs]
  apply setLive_good
  refine le_trans (spliceWindow_length_le s l r _ ?_
    (le_of_lt (terminatorOk_size_lt s hterm)) hlr hr) hsc
  intro w
  exact dropWhile_length_le _ w

theorem trimRight_good (p : Option mdz_AnsiDyn) (l r : Nat)
    (it : Option (List Nat)) (s' : mdz_AnsiDyn)
    (h : mdz_ansi_dyn_trimRight p l r it = (.MDZ_ERROR_NONE, some s')) :
    GoodPost s' := by
  obtain ⟨s, hp, hc, hs⟩ := trimRight_success p l r it s' h
  obtain ⟨items, hit, hsc, hterm, _, _, hr, hlr, _⟩ :=
    rangeChecks_none_facts s l r it false hc
  rw [hs]
  apply setLive_good
  refine le_trans (spliceWindow_length_le s l r _ ?_
    (le_of_lt (terminatorOk_size_lt s hterm)) hlr hr) hsc
  intro w
  calc ((w.reverse.dropWhile (fun c => (it.getD []).contains c)).reverse).length
      = (w.reverse.dropWhile (fun c => (it.getD []).contains c)).length := by
        simp
    _ ≤ w.reverse.length := dropWhile_length_le _ _
    _ = w.length := by simp

theorem trim_good (p : Option mdz_AnsiDyn) (l r : Nat)
    (it : Option (List Nat)) (s' : mdz_AnsiDyn)
    (h : mdz_ansi_dyn_trim p l r it = (.MDZ_ERROR_NONE, some s')) :
    GoodPost s' := by
  obtain ⟨s, hp, hc, hs⟩ := trim_success p l r it s' h
  obtain ⟨items, hit, hsc, hterm, _, _, hr, hlr, _⟩ :=
    rangeChecks_none_facts s l r it false hc
  rw [hs]
  apply setLive_good
  refine le_trans (spliceWindow_length_le s l r _ ?_
    (le_of_lt (terminatorOk_size_lt s hterm)) hlr hr) hsc
  intro w
  calc (((w.dropWhile (fun c => (it.getD []).contains c)).reverse.dropWhile
          (fun c => (it.getD []).contains c)).reverse).length
      = ((w.dropWhile (fun c => (it.getD []).contains c)).reverse.dropWhile
          (fun c => (it.getD []).contains c)).length := by simp
    _ ≤ (w.dropWhile (fun c => (it.getD []).contains c)).reverse.length :=
        dropWhile_length_le _ _
    _ = (w.dropWhile (fun c => (it.getD []).contains c)).length := by simp
    _ ≤ w.length := dropWhile_length_le _ _

theorem reverse_good (p : Option mdz_AnsiDyn) (l r : Nat) (s' : mdz_AnsiDyn)
    (h : mdz_ansi_dyn_reverse p l r = (.MDZ_ERROR_NONE, some s')) :
    GoodPost s' := by
  obtain ⟨s, hp, hc, hs⟩ := reverse_success p l r s' h
  obtain ⟨hsc, hterm, hr, hlr⟩ := reverseChecks_none_facts s l r hc
  rw [hs]
  apply setLive_good
  refine le_trans (spliceWindow_length_le s l r _ ?_
    (le_of_lt (terminatorOk_size_lt s hterm)) (by omega) hr) hsc
  intro w
  simp

theorem replace_good (caps : AllocFunctions) (p : Option mdz_AnsiDyn)
    (l r : Nat) (pb pa : Option (Nat × List Nat)) (b : Bool)
    (ty : mdz_ansi_replace_type) (s' : mdz_AnsiDyn)
    (h : mdz_ansi_dyn_replace caps p l r pb pa b ty =
      (.MDZ_ERROR_NONE, some s')) : GoodPost s' := by
  obtain ⟨s, hp, hc, hs⟩ := replace_success caps p l r pb pa b ty s' h
  rw [hs]
  exact setLive_grow_good s _

theorem removeFrom_stable (s : mdz_AnsiDyn) (l n : Nat) (s2 : mdz_AnsiDyn)
    (h : (mdz_ansi_dyn_removeFrom (some s) l n).2 = some s2) :
    s2.addr = s.addr ∧ s2.capacity = s.capacity := by
  cases hc : removeFromChecks s l n with
  | some e =>
    rw [show mdz_ansi_dyn_removeFrom (some s) l n = (e, some s) from by
      simp [mdz_ansi_dyn_removeFrom, hc]] at h
    injection h with h2
    rw [← h2]
    exact ⟨rfl, rfl⟩
  | none =>
    rw [show mdz_ansi_dyn_removeFrom (some s) l n = (.MDZ_ERROR_NONE,
      some (setLive s ((liveOf s).take l ++ (liveOf s).drop (l + n)))) from by
        simp [mdz_ansi_dyn_removeFrom, hc]] at h
    injection h with h2
    rw [← h2]
    exact ⟨rfl, rfl⟩

theorem remove_stable (s : mdz_AnsiDyn) (l r : Nat) (it : Option (List Nat))
    (b : Bool) (s2 : mdz_AnsiDyn)
    (h : (mdz_ansi_dyn_remove (some s) l r it b).2 = some s2) :
    s2.addr = s.addr ∧ s2.capacity = s.capacity := by
  cases hc : rangeChecks s l r it true with
  | some e =>
    rw [show mdz_ansi_dyn_remove (some s) l r it b = (e, some s) from by
      simp [mdz_ansi_dyn_remove, hc]] at h
    injection h with h2
    rw [← h2]
    exact ⟨rfl, rfl⟩
  | none =>
    rw [show mdz_ansi_dyn_remove (some s) l r it b = (.MDZ_ERROR_NONE,
      some (setLive s (spliceWindow s l r (fun w =>
        if b then removeAllL w (it.getD []) else removeAllR w (it.getD [])))))
      from by simp [mdz_ansi_dyn_remove, hc]] at h
    injection h with h2
    rw [← h2]
    exact ⟨rfl, rfl⟩

theorem trimLeft_stable (s : mdz_AnsiDyn) (l r : Nat) (it : Option (List Nat))
    (s2 : mdz_AnsiDyn)
    (h : (mdz_ansi_dyn_trimLeft (some s) l r it).2 = some s2) :
    s2.addr = s.addr ∧ s2.capacity = s.capacity := by
  cases hc : rangeChecks s l r it false with
  | some e =>
    rw [show mdz_ansi_dyn_trimLeft (some s) l r it = (e, some s) from by
      simp [mdz_ansi_dyn_trimLeft, hc]] at h
    injection h with h2
    rw [← h2]
    exact ⟨rfl, rfl⟩
  | none =>
    rw [show mdz_ansi_dyn_trimLeft (some s) l r it = (.MDZ_ERROR_NONE,
      some (setLive s (spliceWindow s l r (fun w =>
        w.dropWhile (fun c => (it.getD []).contains c))))) from by
          simp [mdz_ansi_dyn_trimLeft, hc]] at h
    injection h with h2
    rw [← h2]
    exact ⟨rfl, rfl⟩

theorem trimRight_stable (s : mdz_AnsiDyn) (l r : Nat) (it : Option (List Nat))
    (s2 : mdz_AnsiDyn)
    (h : (mdz_ansi_dyn_trimRight (some s) l r it).2 = some s2) :
    s2.addr = s.addr ∧ s2.capacity = s.capacity := by
  cases hc : rangeChecks s l r it false with
  | some e =>
    rw [show mdz_ansi_dyn_trimRight (some s) l r it = (e, some s) from by
      simp [mdz_ansi_dyn_trimRight, hc]] at h
    injection h with h2
    rw [← h2]
    exact ⟨rfl, rfl⟩
  | none =>
    rw [show mdz_ansi_dyn_trimRight (some s) l r it = (.MDZ_ERROR_NONE,
      some (setLive s (spliceWindow s l r (fun w =>
        (w.reverse.dropWhile (fun c => (it.getD []).contains c)).reverse))))
      from by simp [mdz_ansi_dyn_trimRight, hc]] at h
    injection h with h2
    rw [← h2]
    exact ⟨rfl, rfl⟩

theorem trim_stable (s : mdz_AnsiDyn) (l r : Nat) (it : Option (List Nat))
    (s2 : mdz_AnsiDyn)
    (h : (mdz_ansi_dyn_trim (some s) l r it).2 = some s2) :
    s2.addr = s.addr ∧ s2.capacity = s.capacity := by
  cases hc : rangeChecks s l r it false with
  | some e =>
    rw [show mdz_ansi_dyn_trim (some s) l r it = (e, some s) from by
      simp [mdz_ansi_dyn_trim, hc]] at h
    injection h with h2
    rw [← h2]
    exact ⟨rfl, rfl⟩
  | none =>
    rw [show mdz_ansi_dyn_trim (some s) l r it = (.MDZ_ERROR_NONE,
      some (setLive s (spliceWindow s l r (fun w =>
        ((w.dropWhile (fun c => (it.getD []).contains c)).reverse.dropWhile
          (fun c => (it.getD []).contains c)).reverse)))) from by
            simp [mdz_ansi_dyn_trim, hc]] at h
    injection h with h2
    rw [← h2]
    exact ⟨rfl, rfl⟩

theorem reverse_stable (s : mdz_AnsiDyn) (l r : Nat) (s2 : mdz_AnsiDyn)
    (h : (mdz_ansi_dyn_reverse (some s) l r).2 = some s2) :
    s2.addr = s.addr ∧ s2.capacity = s.capacity := by
  cases hc : reverseChecks s l r with
  | some e =>
    rw [show mdz_ansi_dyn_reverse (some s) l r = (e, some s) from by
      simp [mdz_ansi_dyn_reverse, hc]] at h
    injection h with h2
    rw [← h2]
    exact ⟨rfl, rfl⟩
  | none =>
    rw [show mdz_ansi_dyn_reverse (some s) l r = (.MDZ_ERROR_NONE,
      some (setLive s (spliceWindow s l r List.reverse))) from by
        simp [mdz_ansi_dyn_reverse, hc]] at h
    injection h with h2
    rw [← h2]
    exact ⟨rfl, rfl⟩

theorem insert_stable (caps : AllocFunctions) (s : mdz_AnsiDyn) (l : Nat)
    (it : Option (Nat × List Nat)) (s2 : mdz_AnsiDyn)
    (ha : s.attached = true)
    (h : (mdz_ansi_dyn_insert caps (some s) l it).2 = some s2) :
    s2.addr = s.addr ∧ s2.capacity = s.capacity := by
  cases hc : insertChecks caps s l it with
  | some e =>
    rw [show mdz_ansi_dyn_insert caps (some s) l it = (e, some s) from by
      simp [mdz_ansi_dyn_insert, hc]] at h
    injection h with h2
    rw [← h2]
    exact ⟨rfl, rfl⟩
  | none =>
    obtain ⟨ia, items, hit, _, _, _, _, _, hgrow⟩ :=
      insertChecks_none_facts caps s l it hc
    rw [show mdz_ansi_dyn_insert caps (some s) l it = (.MDZ_ERROR_NONE,
      some (insertApply s l ((it.getD (0, [])).2))) from by
        simp [mdz_ansi_dyn_insert, hc]] at h
    injection h with h2
    rw [← h2]
    have hfit : s.size + ((it.getD (0, [])).2).length ≤ s.capacity := by
      rcases hgrow with hg | hg
      · rw [hit]
        exact hg
      · rw [hg.1] at ha
        exact Bool.noConfusion ha
    exact insertApply_addrcap s l _ hfit

theorem replace_stable (caps : AllocFunctions) (s : mdz_AnsiDyn) (l r : Nat)
    (pb pa : Option (Nat × List Nat)) (b : Bool) (ty : mdz_ansi_replace_type)
    (s2 : mdz_AnsiDyn) (ha : s.attached = true)
    (h : (mdz_ansi_dyn_replace caps (some s) l r pb pa b ty).2 = some s2) :
    s2.addr = s.addr ∧ s2.capacity = s.capacity := by
  cases hc : replaceChecks caps s l r pb pa b ty with
  | some e =>
    rw [show mdz_ansi_dyn_replace caps (some s) l r pb pa b ty = (e, some s)
      from by simp [mdz_ansi_dyn_replace, hc]] at h
    injection h with h2
    rw [← h2]
    exact ⟨rfl, rfl⟩
  | none =>
    obtain ⟨ba, nBefore, hpb, _, _, _, _, _, _, _, _, _, hgrow⟩ :=
      replaceChecks_none_facts caps s l r pb pa b ty hc
    have hfit : (replaceResultLive s l r ((pb.getD (0, [])).2)
        ((pa.getD (0, [])).2) b).length ≤ s.capacity := by
      rcases hgrow with hg | hg
      · rw [hpb]
        exact hg
      · rw [hg.1] at ha
        exact Bool.noConfusion ha
    rw [show mdz_ansi_dyn_replace caps (some s) l r pb pa b ty =
      (.MDZ_ERROR_NONE, some (setLive s (replaceResultLive s l r
        ((pb.getD (0, [])).2) ((pa.getD (0, [])).2) b))) from by
          unfold mdz_ansi_dyn_replace
          dsimp only
          rw [hc]
          dsimp only
          rw [if_pos hfit]] at h
    injection h with h2
    rw [← h2]
    exact ⟨rfl, rfl⟩

theorem insertChecks_attached (caps : AllocFunctions) (s : mdz_AnsiDyn)
    (l ia : Nat) (items : List Nat) (hcap : s.capacity ≠ 0)
    (hterm : terminatorOk s) (hitems : items ≠ []) (hl : l ≤ s.size)
    (hov : ¬ itemsOverlap s.addr (s.addr + s.size + items.length) ia
      items.length)
    (hbig : s.capacity < s.size + items.length) (ha : s.attached = true) :
    insertChecks caps s l (some (ia, items)) = some .MDZ_ERROR_ATTACHED := by
  unfold insertChecks
  rw [if_neg hcap, if_neg (not_not_intro hterm)]
  dsimp only
  rw [if_neg (by simpa using hitems), if_neg (by omega : ¬ s.size < l),
    if_neg hov, if_neg (by omega : ¬ s.size + items.length ≤ s.capacity),
    if_pos ha]

theorem replaceChecks_attached (caps : AllocFunctions) (s : mdz_AnsiDyn)
    (l r ba : Nat) (nBefore : List Nat) (pa : Option (Nat × List Nat))
    (b : Bool) (hcap : s.capacity ≠ 0) (hbs : ¬ s.capacity < s.size)
    (hzs : s.size ≠ 0) (hterm : terminatorOk s) (hb : ¬ nBefore.length = 0)
    (hr : ¬ s.size ≤ r) (hlr : ¬ r < l)
    (hcount : ¬ r + 1 - l < nBefore.length)
    (hov1 : ¬ (itemsOverlap s.addr (s.addr + s.size) ba nBefore.length ∨
      itemsOverlap s.addr (s.addr + s.size) ((pa.getD (0, [])).1)
        ((pa.getD (0, [])).2).length))
    (hov2 : ¬ (itemsOverlap s.addr (s.addr + (replaceResultLive s l r nBefore
        ((pa.getD (0, [])).2) b).length) ba nBefore.length ∨
      itemsOverlap s.addr (s.addr + (replaceResultLive s l r nBefore
        ((pa.getD (0, [])).2) b).length) ((pa.getD (0, [])).1)
        ((pa.getD (0, [])).2).length))
    (hbig : ¬ (replaceResultLive s l r nBefore ((pa.getD (0, [])).2)
      b).length ≤ s.capacity)
    (ha : s.attached = true) :
    replaceChecks caps s l r (some (ba, nBefore)) pa b
      .MDZ_ANSI_REPLACE_DUAL = some .MDZ_ERROR_ATTACHED := by
  unfold replaceChecks
  rw [if_neg hcap, if_neg hbs, if_neg hzs, if_neg (not_not_intro hterm)]
  dsimp only
  rw [if_neg hb, if_neg hr, if_neg hlr, if_neg hcount,
    if_neg (by simp : ¬ (mdz_ansi_replace_type.MDZ_ANSI_REPLACE_DUAL ≠
      mdz_ansi_replace_type.MDZ_ANSI_REPLACE_DUAL)),
    if_neg hov1, if_neg hov2, if_neg hbig, if_pos ha]

/-- Concrete handle used by the instantiation theorems: content `[1, 2, 3]`
with terminator, capacity 5, owned. -/
def exHandle : mdz_AnsiDyn :=
  { addr := 100, buf := [1, 2, 3, 0, 9, 9], size := 3, capacity := 5,
    attached := false }

/-- Concrete allocator capability with every function registered. -/
def exCaps : AllocFunctions :=
  { pAllocFunc := true, pReallocFunc := true, pFreeFunc := true }

/-- C1: for every handle and every mutation operation (insert, removeFrom,
remove, trimLeft, trimRight, trim, replace, reverse), a call returning
`MDZ_ERROR_NONE` leaves the terminator invariant `Data[Size] == 0` and the
bound `Size ≤ Capacity` holding on the resulting handle. -/
theorem C1_mutation_invariants :
    (∀ caps p l it s', mdz_ansi_dyn_insert caps p l it =
        (.MDZ_ERROR_NONE, some s') →
      terminatorOk s' ∧ s'.size ≤ s'.capacity) ∧
    (∀ p l n s', mdz_ansi_dyn_removeFrom p l n = (.MDZ_ERROR_NONE, some s') →
      terminatorOk s' ∧ s'.size ≤ s'.capacity) ∧
    (∀ p l r it b s', mdz_ansi_dyn_remove p l r it b =
        (.MDZ_ERROR_NONE, some s') →
      terminatorOk s' ∧ s'.size ≤ s'.capacity) ∧
    (∀ p l r it s', mdz_ansi_dyn_trimLeft p l r it =
        (.MDZ_ERROR_NONE, some s') →
      terminatorOk s' ∧ s'.size ≤ s'.capacity) ∧
    (∀ p l r it s', mdz_ansi_dyn_trimRight p l r it =
        (.MDZ_ERROR_NONE, some s') →
      terminatorOk s' ∧ s'.size ≤ s'.capacity) ∧
    (∀ p l r it s', mdz_ansi_dyn_trim p l r it = (.MDZ_ERROR_NONE, some s') →
      terminatorOk s' ∧ s'.size ≤ s'.capacity) ∧
    (∀ caps p l r pb pa b ty s', mdz_ansi_dyn_replace caps p l r pb pa b ty =
        (.MDZ_ERROR_NONE, some s') →
      terminatorOk s' ∧ s'.size ≤ s'.capacity) ∧
    (∀ p l r s', mdz_ansi_dyn_reverse p l r = (.MDZ_ERROR_NONE, some s') →
      terminatorOk s' ∧ s'.size ≤ s'.capacity) :=
  ⟨fun caps p l it s' h => insert_good caps p l it s' h,
   fun p l n s' h => removeFrom_good p l n s' h,
   fun p l r it b s' h => remove_good p l r it b s' h,
   fun p l r it s' h => trimLeft_good p l r it s' h,
   fun p l r it s' h => trimRight_good p l r it s' h,
   fun p l r it s' h => trim_good p l r it s' h,
   fun caps p l r pb pa b ty s' h => replace_good caps p l r pb pa b ty s' h,
   fun p l r s' h => reverse_good p l r s' h⟩

/-- Instantiation of C1 at a concrete successful call of each of the eight
mutation operations. -/
theorem C1_mutation_invariants_witness :
    (terminatorOk ((mdz_ansi_dyn_insert exCaps (some exHandle) 1
        (some (500, [7]))).2.getD exHandle) ∧
      ((mdz_ansi_dyn_insert exCaps (some exHandle) 1
        (some (500, [7]))).2.getD exHandle).size ≤
      ((mdz_ansi_dyn_insert exCaps (some exHandle) 1
        (some (500, [7]))).2.getD exHandle).capacity) ∧
    (terminatorOk ((mdz_ansi_dyn_removeFrom (some exHandle) 1 1).2.getD
        exHandle) ∧
      ((mdz_ansi_dyn_removeFrom (some exHandle) 1 1).2.getD exHandle).size ≤
      ((mdz_ansi_dyn_removeFrom (some exHandle) 1 1).2.getD
        exHandle).capacity) ∧
    (terminatorOk ((mdz_ansi_dyn_remove (some exHandle) 0 2 (some [2])
        true).2.getD exHandle) ∧
      ((mdz_ansi_dyn_remove (some exHandle) 0 2 (some [2]) true).2.getD
        exHandle).size ≤
      ((mdz_ansi_dyn_remove (some exHandle) 0 2 (some [2]) true).2.getD
        exHandle).capacity) ∧
    (terminatorOk ((mdz_ansi_dyn_trimLeft (some exHandle) 0 2
        (some [1])).2.getD exHandle) ∧
      ((mdz_ansi_dyn_trimLeft (some exHandle) 0 2 (some [1])).2.getD
        exHandle).size ≤
      ((mdz_ansi_dyn_trimLeft (some exHandle) 0 2 (some [1])).2.getD
        exHandle).capacity) ∧
    (terminatorOk ((mdz_ansi_dyn_trimRight (some exHandle) 0 2
        (some [3])).2.getD exHandle) ∧
      ((mdz_ansi_dyn_trimRight (some exHandle) 0 2 (some [3])).2.getD
        exHandle).size ≤
      ((mdz_ansi_dyn_trimRight (some exHandle) 0 2 (some [3])).2.getD
        exHandle).capacity) ∧
    (terminatorOk ((mdz_ansi_dyn_trim (some exHandle) 0 2
        (some [1])).2.getD exHandle) ∧
      ((mdz_ansi_dyn_trim (some exHandle) 0 2 (some [1])).2.getD
        exHandle).size ≤
      ((mdz_ansi_dyn_trim (some exHandle) 0 2 (some [1])).2.getD
        exHandle).capacity) ∧
    (terminatorOk ((mdz_ansi_dyn_replace exCaps (some exHandle) 0 2
        (some (500, [2])) (some (600, [5])) true
        .MDZ_ANSI_REPLACE_DUAL).2.getD exHandle) ∧
      ((mdz_ansi_dyn_replace exCaps (some exHandle) 0 2 (some (500, [2]))
        (some (600, [5])) true .MDZ_ANSI_REPLACE_DUAL).2.getD
        exHandle).size ≤
      ((mdz_ansi_dyn_replace exCaps (some exHandle) 0 2 (some (500, [2]))
        (some (600, [5])) true .MDZ_ANSI_REPLACE_DUAL).2.getD
        exHandle).capacity) ∧
    (terminatorOk ((mdz_ansi_dyn_reverse (some exHandle) 0 2).2.getD
        exHandle) ∧
      ((mdz_ansi_dyn_reverse (some exHandle) 0 2).2.getD exHandle).size ≤
      ((mdz_ansi_dyn_reverse (some exHandle) 0 2).2.getD
        exHandle).capacity) :=
  ⟨C1_mutation_invariants.1 exCaps (some exHandle) 1 (some (500, [7])) _
      (by decide),
   C1_mutation_invariants.2.1 (some exHandle) 1 1 _ (by decide),
   C1_mutation_invariants.2.2.1 (some exHandle) 0 2 (some [2]) true _
      (by decide),
   C1_mutation_invariants.2.2.2.1 (some exHandle) 0 2 (some [1]) _
      (by decide),
   C1_mutation_invariants.2.2.2.2.1 (some exHandle) 0 2 (some [3]) _
      (by decide),
   C1_mutation_invariants.2.2.2.2.2.1 (some exHandle) 0 2 (some [1]) _
      (by decide),
   C1_mutation_invariants.2.2.2.2.2.2.1 exCaps (some exHandle) 0 2
      (some (500, [2])) (some (600, [5])) true .MDZ_ANSI_REPLACE_DUAL _
      (by decide),
   C1_mutation_invariants.2.2.2.2.2.2.2 (some exHandle) 0 2 _ (by decide)⟩

/-- C2: every mutation operation other than a straight-mode replace that
returns an error (any result other than `MDZ_ERROR_NONE`) leaves the handle
exactly as it was passed in: no byte, size, capacity or terminator change
(all-or-nothing failure). -/
theorem C2_error_frozen :
    (∀ caps p l it, (mdz_ansi_dyn_insert caps p l it).1 ≠ .MDZ_ERROR_NONE →
      (mdz_ansi_dyn_insert caps p l it).2 = p) ∧
    (∀ p l n, (mdz_ansi_dyn_removeFrom p l n).1 ≠ .MDZ_ERROR_NONE →
      (mdz_ansi_dyn_removeFrom p l n).2 = p) ∧
    (∀ p l r it b, (mdz_ansi_dyn_remove p l r it b).1 ≠ .MDZ_ERROR_NONE →
      (mdz_ansi_dyn_remove p l r it b).2 = p) ∧
    (∀ p l r it, (mdz_ansi_dyn_trimLeft p l r it).1 ≠ .MDZ_ERROR_NONE →
      (mdz_ansi_dyn_trimLeft p l r it).2 = p) ∧
    (∀ p l r it, (mdz_ansi_dyn_trimRight p l r it).1 ≠ .MDZ_ERROR_NONE →
      (mdz_ansi_dyn_trimRight p l r it).2 = p) ∧
    (∀ p l r it, (mdz_ansi_dyn_trim p l r it).1 ≠ .MDZ_ERROR_NONE →
      (mdz_ansi_dyn_trim p l r it).2 = p) ∧
    (∀ caps p l r pb pa b ty, ty = .MDZ_ANSI_REPLACE_DUAL →
      (mdz_ansi_dyn_replace caps p l r pb pa b ty).1 ≠ .MDZ_ERROR_NONE →
      (mdz_ansi_dyn_replace caps p l r pb pa b ty).2 = p) ∧
    (∀ p l r, (mdz_ansi_dyn_reverse p l r).1 ≠ .MDZ_ERROR_NONE →
      (mdz_ansi_dyn_reverse p l r).2 = p) :=
  ⟨fun caps p l it h => insert_frozen caps p l it h,
   fun p l n h => removeFrom_frozen p l n h,
   fun p l r it b h => remove_frozen p l r it b h,
   fun p l r it h => trimLeft_frozen p l r it h,
   fun p l r it h => trimRight_frozen p l r it h,
   fun p l r it h => trim_frozen p l r it h,
   fun caps p l r pb pa b ty _ h => replace_frozen caps p l r pb pa b ty h,
   fun p l r h => reverse_frozen p l r h⟩

/-- Instantiation of C2 at a concrete failing call of each of the eight
mutation operations. -/
theorem C2_error_frozen_witness :
    (mdz_ansi_dyn_insert exCaps (some exHandle) 4 (some (500, [7]))).2 =
      some exHandle ∧
    (mdz_ansi_dyn_removeFrom (some exHandle) 1 0).2 = some exHandle ∧
    (mdz_ansi_dyn_remove (some exHandle) 0 2 Option.none true).2 =
      some exHandle ∧
    (mdz_ansi_dyn_trimLeft (some exHandle) 0 3 (some [1])).2 =
      some exHandle ∧
    (mdz_ansi_dyn_trimRight (some exHandle) 2 0 (some [3])).2 =
      some exHandle ∧
    (mdz_ansi_dyn_trim (some exHandle) 0 2 (some [])).2 = some exHandle ∧
    (mdz_ansi_dyn_replace exCaps (some exHandle) 0 2 Option.none
      Option.none true .MDZ_ANSI_REPLACE_DUAL).2 = some exHandle ∧
    (mdz_ansi_dyn_reverse (some exHandle) 2 2).2 = some exHandle :=
  ⟨C2_error_frozen.1 exCaps (some exHandle) 4 (some (500, [7])) (by decide),
   C2_error_frozen.2.1 (some exHandle) 1 0 (by decide),
   C2_error_frozen.2.2.1 (some exHandle) 0 2 Option.none true (by decide),
   C2_error_frozen.2.2.2.1 (some exHandle) 0 3 (some [1]) (by decide),
   C2_error_frozen.2.2.2.2.1 (some exHandle) 2 0 (some [3]) (by decide),
   C2_error_frozen.2.2.2.2.2.1 (some exHandle) 0 2 (some []) (by decide),
   C2_error_frozen.2.2.2.2.2.2.1 exCaps (some exHandle) 0 2 Option.none
     Option.none true .MDZ_ANSI_REPLACE_DUAL rfl (by decide),
   C2_error_frozen.2.2.2.2.2.2.2 (some exHandle) 2 2 (by decide)⟩

/-- Concrete attached handle with content `[1, 2]` and capacity 2 (full). -/
def exAtt : mdz_AnsiDyn :=
  { addr := 100, buf := [1, 2, 0], size := 2, capacity := 2, attached := true }

/-- Concrete attached handle with content `[2, 2, 2]` and capacity 3. -/
def exAtt3 : mdz_AnsiDyn :=
  { addr := 100, buf := [2, 2, 2, 0], size := 3, capacity := 3,
    attached := true }

/-- C3: on an attached handle, an insert that needs more capacity than the
handle has, and a replace whose computed final size exceeds the capacity,
fail with `MDZ_ERROR_ATTACHED` leaving the handle untouched; and no engine
operation ever changes the data pointer or the capacity of an attached
handle. -/
theorem C3_attached_immutable :
    (∀ caps s l ia items, s.attached = true → s.capacity ≠ 0 →
      terminatorOk s → items ≠ ([] : List Nat) → l ≤ s.size →
      ¬ itemsOverlap s.addr (s.addr + s.size + items.length) ia
        items.length →
      s.capacity < s.size + items.length →
      mdz_ansi_dyn_insert caps (some s) l (some (ia, items)) =
        (.MDZ_ERROR_ATTACHED, some s)) ∧
    (∀ caps s l r ba nBefore pa b, s.attached = true → s.capacity ≠ 0 →
      s.size ≤ s.capacity → s.size ≠ 0 → terminatorOk s →
      nBefore ≠ ([] : List Nat) → r < s.size → l ≤ r →
      nBefore.length ≤ r + 1 - l →
      ¬ (itemsOverlap s.addr (s.addr + s.size) ba nBefore.length ∨
        itemsOverlap s.addr (s.addr + s.size) ((pa.getD (0, [])).1)
          ((pa.getD (0, [])).2).length) →
      ¬ (itemsOverlap s.addr (s.addr + (replaceResultLive s l r nBefore
          ((pa.getD (0, [])).2) b).length) ba nBefore.length ∨
        itemsOverlap s.addr (s.addr + (replaceResultLive s l r nBefore
          ((pa.getD (0, [])).2) b).length) ((pa.getD (0, [])).1)
          ((pa.getD (0, [])).2).length) →
      s.capacity < (replaceResultLive s l r nBefore ((pa.getD (0, [])).2)
        b).length →
      mdz_ansi_dyn_replace caps (some s) l r (some (ba, nBefore)) pa b
        .MDZ_ANSI_REPLACE_DUAL = (.MDZ_ERROR_ATTACHED, some s)) ∧
    (∀ caps s l it s2, s.attached = true →
      (mdz_ansi_dyn_insert caps (some s) l it).2 = some s2 →
      s2.addr = s.addr ∧ s2.capacity = s.capacity) ∧
    (∀ s l n s2, s.attached = true →
      (mdz_ansi_dyn_removeFrom (some s) l n).2 = some s2 →
      s2.addr = s.addr ∧ s2.capacity = s.capacity) ∧
    (∀ s l r it b s2, s.attached = true →
      (mdz_ansi_dyn_remove (some s) l r it b).2 = some s2 →
      s2.addr = s.addr ∧ s2.capacity = s.capacity) ∧
    (∀ s l r it s2, s.attached = true →
      (mdz_ansi_dyn_trimLeft (some s) l r it).2 = some s2 →
      s2.addr = s.addr ∧ s2.capacity = s.capacity) ∧
    (∀ s l r it s2, s.attached = true →
      (mdz_ansi_dyn_trimRight (some s) l r it).2 = some s2 →
      s2.addr = s.addr ∧ s2.capacity = s.capacity) ∧
    (∀ s l r it s2, s.attached = true →
      (mdz_ansi_dyn_trim (some s) l r it).2 = some s2 →
      s2.addr = s.addr ∧ s2.capacity = s.capacity) ∧
    (∀ caps s l r pb pa b ty s2, s.attached = true →
      (mdz_ansi_dyn_replace caps (some s) l r pb pa b ty).2 = some s2 →
      s2.addr = s.addr ∧ s2.capacity = s.capacity) ∧
    (∀ s l r s2, s.attached = true →
      (mdz_ansi_dyn_reverse (some s) l r).2 = some s2 →
      s2.addr = s.addr ∧ s2.capacity = s.capacity) := by
  refine ⟨?_, ?_, ?_, ?_, ?_, ?_, ?_, ?_, ?_, ?_⟩
  · intro caps s l ia items ha hcap hterm hitems hl hov hbig
    have hchk := insertChecks_attached caps s l ia items hcap hterm hitems hl
      hov hbig ha
    simp [mdz_ansi_dyn_insert, hchk]
  · intro caps s l r ba nBefore pa b ha hcap hbs hzs hterm hb hr hlr hcount
      hov1 hov2 hbig
    have hchk := replaceChecks_attached caps s l r ba nBefore pa b hcap
      (by omega) hzs hterm (by simpa using hb) (by omega) (by omega)
      (by omega) hov1 hov2 (by omega) ha
    simp [mdz_ansi_dyn_replace, hchk]
  · intro caps s l it s2 ha h
    exact insert_stable caps s l it s2 ha h
  · intro s l n s2 _ h
    exact removeFrom_stable s l n s2 h
  · intro s l r it b s2 _ h
    exact remove_stable s l r it b s2 h
  · intro s l r it s2 _ h
    exact trimLeft_stable s l r it s2 h
  · intro s l r it s2 _ h
    exact trimRight_stable s l r it s2 h
  · intro s l r it s2 _ h
    exact trim_stable s l r it s2 h
  · intro caps s l r pb pa b ty s2 ha h
    exact replace_stable caps s l r pb pa b ty s2 ha h
  · intro s l r s2 _ h
    exact reverse_stable s l r s2 h

/-- Instantiation of C3 at a concrete attached handle: a growing insert and
a growing replace fail with the attachment error and keep the handle intact,
and a successful removeFrom keeps pointer and capacity. -/
theorem C3_attached_immutable_witness :
    mdz_ansi_dyn_insert exCaps (some exAtt) 0 (some (500, [7])) =
      (.MDZ_ERROR_ATTACHED, some exAtt) ∧
    mdz_ansi_dyn_replace exCaps (some exAtt3) 0 2 (some (500, [2]))
      (some (600, [5, 6])) true .MDZ_ANSI_REPLACE_DUAL =
      (.MDZ_ERROR_ATTACHED, some exAtt3) ∧
    (((mdz_ansi_dyn_removeFrom (some exAtt3) 0 1).2.getD exAtt3).addr =
      exAtt3.addr ∧
     ((mdz_ansi_dyn_removeFrom (some exAtt3) 0 1).2.getD exAtt3).capacity =
      exAtt3.capacity) :=
  ⟨C3_attached_immutable.1 exCaps exAtt 0 500 [7] (by decide) (by decide)
      (by decide) (by decide) (by decide) (by decide) (by decide),
   C3_attached_immutable.2.1 exCaps exAtt3 0 2 500 [2] (some (600, [5, 6]))
      true (by decide) (by decide) (by decide) (by decide) (by decide)
      (by decide) (by decide) (by decide) (by decide) (by decide) (by decide)
      (by decide),
   C3_attached_immutable.2.2.2.1 exAtt3 0 1 _ (by decide) (by decide)⟩

/-- C7: for every input, including a NULL handle, the compare operation
produces only `MDZ_ANSI_COMPARE_EQUAL` or `MDZ_ANSI_COMPARE_NONEQUAL`; the
ordering and error variants are never returned. -/
theorem C7_compare_two_results : ∀ (p : Option mdz_AnsiDyn) (l : Nat)
    (it : Option (List Nat)) (b : Bool),
    (mdz_ansi_dyn_compare p l it b).1 = .MDZ_ANSI_COMPARE_EQUAL ∨
    (mdz_ansi_dyn_compare p l it b).1 = .MDZ_ANSI_COMPARE_NONEQUAL := by
  intro p l it b
  match p with
  | Option.none => exact Or.inr rfl
  | some s =>
    cases hc : compareChecks s l it with
    | some e =>
      exact Or.inr (by simp [mdz_ansi_dyn_compare, hc])
    | none =>
      simp only [mdz_ansi_dyn_compare]
      rw [hc]
      dsimp only
      split_ifs <;> first | exact Or.inl rfl | exact Or.inr rfl

/-- C10: the query operations are total on a NULL handle: `size` and
`capacity` return 0, `data` and `dataConst` return the null pointer, and as
pure functions they mutate nothing. -/
theorem C10_null_queries :
    mdz_ansi_dyn_size Option.none = 0 ∧
    mdz_ansi_dyn_capacity Option.none = 0 ∧
    mdz_ansi_dyn_data Option.none = Option.none ∧
    mdz_ansi_dyn_dataConst Option.none = Option.none :=
  ⟨rfl, rfl, rfl, rfl⟩

theorem insertChecks_none_of (caps : AllocFunctions) (s : mdz_AnsiDyn)
    (l ia : Nat) (items : List Nat) (hcap : s.capacity ≠ 0)
    (hterm : terminatorOk s) (hitems : items ≠ []) (hl : l ≤ s.size)
    (hov : ¬ itemsOverlap s.addr (s.addr + s.size + items.length) ia
      items.length)
    (hok : s.size + items.length ≤ s.capacity ∨
      (s.attached = false ∧ caps.pReallocFunc = true)) :
    insertChecks caps s l (some (ia, items)) = Option.none := by
  unfold insertChecks
  rw [if_neg hcap, if_neg (not_not_intro hterm)]
  dsimp only
  rw [if_neg (by simpa using hitems), if_neg (by omega : ¬ s.size < l),
    if_neg hov]
  rcases hok with hfit | ⟨hatt, hre⟩
  · rw [if_pos hfit]
  · by_cases hfit : s.size + items.length ≤ s.capacity
    · rw [if_pos hfit]
    · rw [if_neg hfit, if_neg (by simp [hatt]), if_neg (by simp [hre])]

theorem insertChecks_norealloc (caps : AllocFunctions) (s : mdz_AnsiDyn)
    (l ia : Nat) (items : List Nat) (hcap : s.capacity ≠ 0)
    (hterm : terminatorOk s) (hitems : items ≠ []) (hl : l ≤ s.size)
    (hov : ¬ itemsOverlap s.addr (s.addr + s.size + items.length) ia
      items.length)
    (hbig : s.capacity < s.size + items.length) (hatt : s.attached = false)
    (hnore : caps.pReallocFunc = false) :
    insertChecks caps s l (some (ia, items)) =
      some .MDZ_ERROR_REALLOC_FUNC := by
  unfold insertChecks
  rw [if_neg hcap, if_neg (not_not_intro hterm)]
  dsimp only
  rw [if_neg (by simpa using hitems), if_neg (by omega : ¬ s.size < l),
    if_neg hov, if_neg (by omega : ¬ s.size + items.length ≤ s.capacity),
    if_neg (by simp [hatt]), if_pos (by simp [hnore])]

theorem liveOf_insertApply (s : mdz_AnsiDyn) (l : Nat) (items : List Nat) :
    liveOf (insertApply s l items) =
      (liveOf s).take l ++ items ++ (liveOf s).drop l := by
  unfold insertApply
  dsimp only
  split_ifs <;> exact liveOf_setLive _ _

theorem size_insertApply (s : mdz_AnsiDyn) (l : Nat) (items : List Nat)
    (hterm : terminatorOk s) (hl : l ≤ s.size) :
    (insertApply s l items).size = s.size + items.length := by
  unfold insertApply
  dsimp only
  split_ifs <;>
    exact insertApply_len s l items hterm hl

/-- C4: a valid insert on an owned handle with a reallocation function
registered succeeds — also when the request exceeds the capacity, by growing
the backing storage — and produces exactly the bytes before `nLeftPos`, the
inserted items, the former tail shifted right, with the size advanced by the
item count and the terminator rewritten; on an attached handle, and without
a reallocation function, the growth path fails instead. -/
theorem C4_insert_functional :
    (∀ caps s l ia items, s.attached = false → caps.pReallocFunc = true →
      s.capacity ≠ 0 → terminatorOk s → items ≠ ([] : List Nat) →
      l ≤ s.size →
      ¬ itemsOverlap s.addr (s.addr + s.size + items.length) ia
        items.length →
      (mdz_ansi_dyn_insert caps (some s) l (some (ia, items))).1 =
        .MDZ_ERROR_NONE ∧
      ((mdz_ansi_dyn_insert caps (some s) l
        (some (ia, items))).2.getD s).size = s.size + items.length ∧
      liveOf ((mdz_ansi_dyn_insert caps (some s) l
        (some (ia, items))).2.getD s) =
        (liveOf s).take l ++ items ++ (liveOf s).drop l ∧
      terminatorOk ((mdz_ansi_dyn_insert caps (some s) l
        (some (ia, items))).2.getD s)) ∧
    (∀ caps s l ia items, s.attached = true → s.capacity ≠ 0 →
      terminatorOk s → items ≠ ([] : List Nat) → l ≤ s.size →
      ¬ itemsOverlap s.addr (s.addr + s.size + items.length) ia
        items.length →
      s.capacity < s.size + items.length →
      mdz_ansi_dyn_insert caps (some s) l (some (ia, items)) =
        (.MDZ_ERROR_ATTACHED, some s)) ∧
    (∀ caps s l ia items, s.attached = false → caps.pReallocFunc = false →
      s.capacity ≠ 0 → terminatorOk s → items ≠ ([] : List Nat) →
      l ≤ s.size →
      ¬ itemsOverlap s.addr (s.addr + s.size + items.length) ia
        items.length →
      s.capacity < s.size + items.length →
      mdz_ansi_dyn_insert caps (some s) l (some (ia, items)) =
        (.MDZ_ERROR_REALLOC_FUNC, some s)) := by
  refine ⟨?_, ?_, ?_⟩
  · intro caps s l ia items hatt hre hcap hterm hitems hl hov
    have hchk := insertChecks_none_of caps s l ia items hcap hterm hitems hl
      hov (Or.inr ⟨hatt, hre⟩)
    have hr : mdz_ansi_dyn_insert caps (some s) l (some (ia, items)) =
        (.MDZ_ERROR_NONE, some (insertApply s l items)) := by
      simp [mdz_ansi_dyn_insert, hchk]
    rw [hr]
    refine ⟨rfl, ?_, ?_, ?_⟩
    · exact size_insertApply s l items hterm hl
    · exact liveOf_insertApply s l items
    · exact (insertApply_good s l items hterm hl).1
  · intro caps s l ia items hatt hcap hterm hitems hl hov hbig
    have hchk := insertChecks_attached caps s l ia items hcap hterm hitems hl
      hov hbig hatt
    simp [mdz_ansi_dyn_insert, hchk]
  · intro caps s l ia items hatt hre hcap hterm hitems hl hov hbig
    have hchk := insertChecks_norealloc caps s l ia items hcap hterm hitems
      hl hov hbig hatt hre
    simp [mdz_ansi_dyn_insert, hchk]

/-- Concrete allocator capability with no reallocation function. -/
def exCapsNoRealloc : AllocFunctions :=
  { pAllocFunc := true, pReallocFunc := false, pFreeFunc := true }

/-- Concrete owned handle with content `[2, 2, 2]` and a full capacity 3. -/
def exOwnFull : mdz_AnsiDyn :=
  { addr := 100, buf := [2, 2, 2, 0], size := 3, capacity := 3,
    attached := false }

/-- Instantiation of C4: a growing insert into the concrete owned handle,
the same insert on an attached twin failing with the attachment error, and
the same insert without a reallocation function failing with the
missing-reallocation error. -/
theorem C4_insert_functional_witness :
    ((mdz_ansi_dyn_insert exCaps (some exHandle) 1
        (some (500, [7, 8, 7, 8]))).1 = .MDZ_ERROR_NONE ∧
      ((mdz_ansi_dyn_insert exCaps (some exHandle) 1
        (some (500, [7, 8, 7, 8]))).2.getD exHandle).size =
        exHandle.size + [7, 8, 7, 8].length ∧
      liveOf ((mdz_ansi_dyn_insert exCaps (some exHandle) 1
        (some (500, [7, 8, 7, 8]))).2.getD exHandle) =
        (liveOf exHandle).take 1 ++ [7, 8, 7, 8] ++
          (liveOf exHandle).drop 1 ∧
      terminatorOk ((mdz_ansi_dyn_insert exCaps (some exHandle) 1
        (some (500, [7, 8, 7, 8]))).2.getD exHandle)) ∧
    mdz_ansi_dyn_insert exCaps (some exAtt) 1 (some (500, [7])) =
      (.MDZ_ERROR_ATTACHED, some exAtt) ∧
    mdz_ansi_dyn_insert exCapsNoRealloc (some exOwnFull) 1
        (some (500, [7])) =
      (.MDZ_ERROR_REALLOC_FUNC, some exOwnFull) :=
  ⟨C4_insert_functional.1 exCaps exHandle 1 500 [7, 8, 7, 8] (by decide)
      (by decide) (by decide) (by decide) (by decide) (by decide) (by decide),
   C4_insert_functional.2.1 exCaps exAtt 1 500 [7] (by decide) (by decide)
      (by decide) (by decide) (by decide) (by decide) (by decide),
   C4_insert_functional.2.2 exCapsNoRealloc exOwnFull 1 500 [7] (by decide)
      (by decide) (by decide) (by decide) (by decide) (by decide) (by decide)
      (by decide)⟩

/-- Concrete handle with the nine bytes of `"abcabcabc"` and terminator. -/
def exAbc : mdz_AnsiDyn :=
  { addr := 1000, buf := [97, 98, 99, 97, 98, 99, 97, 98, 99, 0], size := 9,
    capacity := 9, attached := false }

/-- C6: on the handle content `"abcabcabc"`, `find` of `"bc"` over `[0, 8]`
returns 1, `rfind` of the same pattern returns 7, and `count` of `"abc"`
with overlapping disallowed returns 3 (from either scan direction). -/
theorem C6_search_concrete :
    (mdz_ansi_dyn_find (some exAbc) 0 8 (some [98, 99])).1 = 1 ∧
    (mdz_ansi_dyn_rfind (some exAbc) 0 8 (some [98, 99])).1 = 7 ∧
    (mdz_ansi_dyn_count (some exAbc) 0 8 (some [97, 98, 99]) false
      true).1 = 3 ∧
    (mdz_ansi_dyn_count (some exAbc) 0 8 (some [97, 98, 99]) false
      false).1 = 3 := by
  refine ⟨?_, ?_, ?_, ?_⟩ <;> decide

theorem insertChecks_overlap (caps : AllocFunctions) (s : mdz_AnsiDyn)
    (l ia : Nat) (items : List Nat) (hcap : s.capacity ≠ 0)
    (hterm : terminatorOk s) (hitems : items ≠ []) (hl : l ≤ s.size)
    (hov : itemsOverlap s.addr (s.addr + s.size + items.length) ia
      items.length) :
    insertChecks caps s l (some (ia, items)) = some .MDZ_ERROR_OVERLAP := by
  unfold insertChecks
  rw [if_neg hcap, if_neg (not_not_intro hterm)]
  dsimp only
  rw [if_neg (by simpa using hitems), if_neg (by omega : ¬ s.size < l),
    if_pos hov]

/-- C8 counterexample: with the item pointer 101 strictly inside the
handle's storage region `[100, 104]` and a positive count, an insert called
with `nLeftPos = 4 > Size = 3` fails with `MDZ_ERROR_BIG_LEFT`, not with the
overlap error — the claim's "regardless of the values of nLeftPos" fails. -/
theorem C8_overlap_counterexample :
    0 < ([7] : List Nat).length ∧
    exHandle.addr ≤ 101 ∧
    101 ≤ exHandle.addr + exHandle.size + ([7] : List Nat).length ∧
    mdz_ansi_dyn_insert exCaps (some exHandle) 4 (some (101, [7])) =
      (.MDZ_ERROR_BIG_LEFT, some exHandle) ∧
    (mdz_ansi_dyn_insert exCaps (some exHandle) 4 (some (101, [7]))).1 ≠
      .MDZ_ERROR_OVERLAP := by
  refine ⟨?_, ?_, ?_, ?_, ?_⟩ <;> decide

/-- C8 (amended): when the earlier validations pass — capacity non-zero,
terminator intact, non-empty items — and `nLeftPos ≤ Size`, an insert whose
item pointer lies inside the storage region `[Data, Data + Size + nCount]`
always fails with `MDZ_ERROR_OVERLAP` and performs no mutation, for every
positive count. -/
theorem C8_overlap_rejection (caps : AllocFunctions) (s : mdz_AnsiDyn)
    (l ia : Nat) (items : List Nat) (hcap : s.capacity ≠ 0)
    (hterm : terminatorOk s) (hitems : items ≠ []) (hl : l ≤ s.size)
    (hlo : s.addr ≤ ia) (hhi : ia ≤ s.addr + s.size + items.length) :
    mdz_ansi_dyn_insert caps (some s) l (some (ia, items)) =
      (.MDZ_ERROR_OVERLAP, some s) := by
  have hov : itemsOverlap s.addr (s.addr + s.size + items.length) ia
      items.length := by
    have h1 : 1 ≤ items.length := by
      cases items with
      | nil => exact absurd rfl hitems
      | cons a t => simp
    exact ⟨by omega, hhi, by omega⟩
  have hchk := insertChecks_overlap caps s l ia items hcap hterm hitems hl hov
  simp [mdz_ansi_dyn_insert, hchk]

/-- Instantiation of the amended C8 at a concrete aliasing insert. -/
theorem C8_overlap_rejection_witness :
    mdz_ansi_dyn_insert exCaps (some exHandle) 1 (some (101, [7])) =
      (.MDZ_ERROR_OVERLAP, some exHandle) :=
  C8_overlap_rejection exCaps exHandle 1 101 [7] (by decide) (by decide)
    (by decide) (by decide) (by decide) (by decide)

theorem splice_id (X : List Nat) (a b : Nat) (hab : a ≤ b + 1) :
    X.take a ++ (X.drop a).take (b + 1 - a) ++ X.drop (b + 1) = X := by
  rw [List.take_drop]
  have h1 : a + (b + 1 - a) = b + 1 := by omega
  rw [h1]
  have h2 : X.take a = (X.take (b + 1)).take a := by
    rw [List.take_take]
    congr 1
    omega
  rw [h2, List.take_append_drop, List.take_append_drop]

theorem setLive_idem (s : mdz_AnsiDyn) (nl : List Nat) :
    setLive (setLive s nl) nl = setLive s nl := by
  have hbuf : (nl ++ 0 :: s.buf.drop (nl.length + 1)).drop (nl.length + 1) =
      s.buf.drop (nl.length + 1) := by
    have h1 : nl ++ 0 :: s.buf.drop (nl.length + 1) =
        (nl ++ [0]) ++ s.buf.drop (nl.length + 1) := by simp
    have h2 : nl.length + 1 = (nl ++ [0]).length := by simp
    rw [h1, h2, List.drop_left]
  unfold setLive
  simp [hbuf]

theorem dropWhile_ne_nil_head (p : Nat → Bool) (xs : List Nat)
    (h : xs.dropWhile p ≠ []) :
    ∃ c t, xs.dropWhile p = c :: t ∧ p c = false := by
  induction xs with
  | nil => exact absurd rfl h
  | cons a t ih =>
    by_cases hp : p a
    · rw [List.dropWhile_cons, if_pos hp] at h ⊢
      exact ih h
    · rw [List.dropWhile_cons, if_neg hp]
      exact ⟨a, t, rfl, by simpa using hp⟩

theorem dropWhile_cons_self (p : Nat → Bool) (c : Nat) (t : List Nat)
    (hc : p c = false) : (c :: t).dropWhile p = c :: t := by
  rw [List.dropWhile_cons, if_neg (by simp [hc])]

theorem getLast?_dropWhile (p : Nat → Bool) (xs : List Nat)
    (h : xs.dropWhile p ≠ []) : (xs.dropWhile p).getLast? = xs.getLast? := by
  induction xs with
  | nil => exact absurd rfl h
  | cons a t ih =>
    by_cases hp : p a
    · rw [List.dropWhile_cons, if_pos hp] at h ⊢
      have ht : t ≠ [] := by
        intro he
        rw [he] at h
        exact h rfl
      rw [ih h]
      match t, ht with
      | b :: t2, _ => simp [List.getLast?_cons]
    · rw [List.dropWhile_cons, if_neg hp]

theorem rangeChecks_none_of (s : mdz_AnsiDyn) (l r : Nat) (items : List Nat)
    (big : Bool) (h1 : ¬ s.capacity < s.size) (h2 : terminatorOk s)
    (h3 : ¬ s.size = 0) (h4 : ¬ items.length = 0) (h5 : ¬ s.size ≤ r)
    (h6 : ¬ r < l) (h7 : big = true → ¬ r + 1 - l < items.length) :
    rangeChecks s l r (some items) big = Option.none := by
  unfold rangeChecks
  rw [if_neg h1, if_neg (not_not_intro h2), if_neg h3]
  dsimp only
  rw [if_neg h4, if_neg h5, if_neg h6,
    if_neg (fun hx => h7 hx.1 hx.2)]

theorem trimLeft_noop (s s' : mdz_AnsiDyn) (l r r' : Nat) (S : List Nat)
    (h : mdz_ansi_dyn_trimLeft (some s) l r (some S) =
      (.MDZ_ERROR_NONE, some s'))
    (hsurv : s.size - s'.size < r + 1 - l)
    (hl : l ≤ r') (hr : r' < s'.size) :
    mdz_ansi_dyn_trimLeft (some s') l r' (some S) =
      (.MDZ_ERROR_NONE, some s') := by
  obtain ⟨s0, hp, hc, hs⟩ := trimLeft_success (some s) l r (some S) s' h
  injection hp with hp0
  subst hp0
  obtain ⟨items, hit, hsc, hterm, hsz, hSne, hrsz, hlr, _⟩ :=
    rangeChecks_none_facts s l r (some S) false hc
  injection hit with hit0
  subst hit0
  have hblen := terminatorOk_size_lt s hterm
  have hL : (liveOf s).length = s.size := length_liveOf s (le_of_lt hblen)
  set p : Nat → Bool := fun c => S.contains c with hp
  set live := liveOf s with hlive
  set A := live.take l with hA
  set w := (live.drop l).take (r + 1 - l) with hw
  set dw := w.dropWhile p with hdw
  set tail := live.drop (r + 1) with htail
  have hAl : A.length = l := by
    rw [hA, List.length_take]
    omega
  have hwlen : w.length = r + 1 - l := by
    rw [hw]
    simp only [List.length_take, List.length_drop]
    omega
  have hdwlen : dw.length ≤ w.length := by
    rw [hdw]
    exact dropWhile_length_le p w
  have htlen : tail.length = live.length - (r + 1) := by
    rw [htail]
    simp
  have hnl : spliceWindow s l r (fun w0 =>
      w0.dropWhile (fun c => ((some S).getD []).contains c)) =
      A ++ dw ++ tail := by
    unfold spliceWindow
    dsimp only [Option.getD_some]
  rw [hnl] at hs
  have hsize' : s'.size = A.length + dw.length + tail.length := by
    rw [hs]
    show (A ++ dw ++ tail).length = _
    simp only [List.length_append]
  have hdwpos : dw ≠ [] := by
    intro hdwe
    rw [hdwe] at hsize'
    simp at hsize'
    omega
  obtain ⟨c, dt, hcdt, hpc⟩ := dropWhile_ne_nil_head p w hdwpos
  rw [← hdw] at hcdt
  have hlive' : liveOf s' = A ++ dw ++ tail := by
    rw [hs]
    exact liveOf_setLive s _
  have hcap' : s'.capacity = s.capacity := by
    rw [hs]
    rfl
  have hsz' : s'.size ≤ s.size := by
    rw [hsize']
    omega
  -- the checks of the second call pass
  have hc2 : rangeChecks s' l r' (some S) false = Option.none := by
    apply rangeChecks_none_of
    · rw [hcap']
      omega
    · rw [hs]
      exact setLive_terminator s _
    · omega
    · simpa using hSne
    · omega
    · omega
    · intro hx
      exact absurd hx (by simp)
  -- the second window keeps its head, which is not in the set
  have hdrop : (liveOf s').drop l = dw ++ tail := by
    rw [hlive', List.append_assoc, ← hAl, List.drop_left]
  have hwin2 : ((liveOf s').drop l).take (r' + 1 - l) =
      c :: (dt ++ tail).take (r' + 1 - l - 1) := by
    rw [hdrop, hcdt]
    rw [List.cons_append, List.take_cons (by omega)]
  have hfwin2 : (((liveOf s').drop l).take (r' + 1 - l)).dropWhile p =
      ((liveOf s').drop l).take (r' + 1 - l) := by
    rw [hwin2]
    exact dropWhile_cons_self p c _ hpc
  have hsplice2 : spliceWindow s' l r' (fun w0 =>
      w0.dropWhile (fun c0 => ((some S).getD []).contains c0)) =
      A ++ dw ++ tail := by
    unfold spliceWindow
    dsimp only [Option.getD_some]
    rw [← hp, hfwin2]
    have hlr' : l ≤ r' + 1 := by omega
    rw [splice_id (liveOf s') l r' hlr']
    exact hlive'
  have hres : mdz_ansi_dyn_trimLeft (some s') l r' (some S) =
      (.MDZ_ERROR_NONE, some (setLive s' (spliceWindow s' l r' (fun w0 =>
        w0.dropWhile (fun c0 => ((some S).getD []).contains c0))))) := by
    simp [mdz_ansi_dyn_trimLeft, hc2]
  rw [hres, hsplice2, hs, setLive_idem]

theorem trimRight_noop (s s' : mdz_AnsiDyn) (l r l' : Nat) (S : List Nat)
    (h : mdz_ansi_dyn_trimRight (some s) l r (some S) =
      (.MDZ_ERROR_NONE, some s'))
    (hsurv : s.size - s'.size < r + 1 - l)
    (hl' : l' ≤ r - (s.size - s'.size)) :
    mdz_ansi_dyn_trimRight (some s') l' (r - (s.size - s'.size)) (some S) =
      (.MDZ_ERROR_NONE, some s') := by
  obtain ⟨s0, hp0, hc, hs⟩ := trimRight_success (some s) l r (some S) s' h
  injection hp0 with hp1
  subst hp1
  obtain ⟨items, hit, hsc, hterm, hsz, hSne, hrsz, hlr, _⟩ :=
    rangeChecks_none_facts s l r (some S) false hc
  injection hit with hit0
  subst hit0
  have hblen := terminatorOk_size_lt s hterm
  have hL : (liveOf s).length = s.size := length_liveOf s (le_of_lt hblen)
  set p : Nat → Bool := fun c => S.contains c with hp
  set live := liveOf s with hlive
  set A := live.take l with hA
  set w := (live.drop l).take (r + 1 - l) with hw
  set dwR := (w.reverse.dropWhile p).reverse with hdwR
  set tail := live.drop (r + 1) with htail
  have hAl : A.length = l := by
    rw [hA, List.length_take]
    omega
  have hwlen : w.length = r + 1 - l := by
    rw [hw]
    simp only [List.length_take, List.length_drop]
    omega
  have hdwlen : dwR.length ≤ w.length := by
    rw [hdwR]
    calc ((w.reverse.dropWhile p).reverse).length
        = (w.reverse.dropWhile p).length := by simp
      _ ≤ w.reverse.length := dropWhile_length_le _ _
      _ = w.length := by simp
  have htlen : tail.length = live.length - (r + 1) := by
    rw [htail]
    simp
  have hnl : spliceWindow s l r (fun w0 =>
      (w0.reverse.dropWhile (fun c => ((some S).getD []).contains c)).reverse)
      = A ++ dwR ++ tail := by
    unfold spliceWindow
    dsimp only [Option.getD_some]
  rw [hnl] at hs
  have hsize' : s'.size = A.length + dwR.length + tail.length := by
    rw [hs]
    show (A ++ dwR ++ tail).length = _
    simp only [List.length_append]
  have hk : s.size - s'.size = (r + 1 - l) - dwR.length := by
    rw [hsize']
    omega
  have hdwpos : dwR ≠ [] := by
    intro hdwe
    rw [hdwe] at hsize'
    simp at hsize'
    omega
  have hdwposlen : 1 ≤ dwR.length := by
    cases hx : dwR with
    | nil => exact absurd hx hdwpos
    | cons a t => simp
  have hrk : r - (s.size - s'.size) = l + dwR.length - 1 := by
    rw [hk]
    omega
  have hlive' : liveOf s' = A ++ dwR ++ tail := by
    rw [hs]
    exact liveOf_setLive s _
  have hcap' : s'.capacity = s.capacity := by
    rw [hs]
    rfl
  have hsz' : s'.size ≤ s.size := by
    rw [hsize']
    omega
  have hszpos : 1 ≤ s'.size := by
    rw [hsize']
    omega
  have hc2 : rangeChecks s' l' (r - (s.size - s'.size)) (some S) false =
      Option.none := by
    apply rangeChecks_none_of
    · rw [hcap']
      omega
    · rw [hs]
      exact setLive_terminator s _
    · omega
    · simpa using hSne
    · rw [hrk, hsize']
      omega
    · omega
    · intro hx
      exact absurd hx (by simp)
  -- the second window: a suffix-closed slice whose last byte is the
  -- survivor, outside the set
  have hAdw : (A ++ dwR).length = l + dwR.length := by
    rw [List.length_append, hAl]
  have htake : (liveOf s').take (l + dwR.length) = A ++ dwR := by
    rw [hlive', ← hAdw, List.take_left]
  have hwin2 : ((liveOf s').drop l').take (r - (s.size - s'.size) + 1 - l') =
      (A ++ dwR).drop l' := by
    rw [List.take_drop]
    have harith : l' + (r - (s.size - s'.size) + 1 - l') = l + dwR.length := by
      rw [hrk]
      omega
    rw [harith, htake]
  obtain ⟨c, dt, hcdt, hpc⟩ := dropWhile_ne_nil_head p w.reverse
    (by intro hx
        rw [hdwR, hx] at hdwpos
        exact hdwpos rfl)
  have hrev2 : ((A ++ dwR).drop l').reverse =
      c :: ((dt ++ A.reverse).take (l + dwR.length - l' - 1)) := by
    rw [List.reverse_drop, hAdw, List.reverse_append]
    have hdrev : dwR.reverse = c :: dt := by
      rw [hdwR, List.reverse_reverse, hcdt]
    rw [hdrev]
    rw [List.cons_append, List.take_cons (by omega)]
  have hfwin2 : ((((A ++ dwR).drop l').reverse).dropWhile p).reverse =
      (A ++ dwR).drop l' := by
    rw [hrev2, dropWhile_cons_self p c _ hpc, ← hrev2, List.reverse_reverse]
  have hsplice2 : spliceWindow s' l' (r - (s.size - s'.size)) (fun w0 =>
      (w0.reverse.dropWhile (fun c0 => ((some S).getD []).contains c0)).reverse)
      = liveOf s' := by
    unfold spliceWindow
    dsimp only [Option.getD_some]
    rw [← hp, hwin2, hfwin2, ← hwin2]
    exact splice_id (liveOf s') l' (r - (s.size - s'.size)) (by omega)
  have hres : mdz_ansi_dyn_trimRight (some s') l' (r - (s.size - s'.size))
      (some S) = (.MDZ_ERROR_NONE, some (setLive s' (spliceWindow s' l'
        (r - (s.size - s'.size)) (fun w0 => (w0.reverse.dropWhile
          (fun c0 => ((some S).getD []).contains c0)).reverse)))) := by
    simp [mdz_ansi_dyn_trimRight, hc2]
  rw [hres, hsplice2, hlive', hs, setLive_idem]

theorem trim_noop (s s' : mdz_AnsiDyn) (l r : Nat) (S : List Nat)
    (h : mdz_ansi_dyn_trim (some s) l r (some S) =
      (.MDZ_ERROR_NONE, some s'))
    (hsurv : s.size - s'.size < r + 1 - l) :
    mdz_ansi_dyn_trim (some s') l (r - (s.size - s'.size)) (some S) =
      (.MDZ_ERROR_NONE, some s') := by
  obtain ⟨s0, hp0, hc, hs⟩ := trim_success (some s) l r (some S) s' h
  injection hp0 with hp1
  subst hp1
  obtain ⟨items, hit, hsc, hterm, hsz, hSne, hrsz, hlr, _⟩ :=
    rangeChecks_none_facts s l r (some S) false hc
  injection hit with hit0
  subst hit0
  have hblen := terminatorOk_size_lt s hterm
  have hL : (liveOf s).length = s.size := length_liveOf s (le_of_lt hblen)
  set p : Nat → Bool := fun c => S.contains c with hp
  set live := liveOf s with hlive
  set A := live.take l with hA
  set w := (live.drop l).take (r + 1 - l) with hw
  set E := w.dropWhile p with hE
  set D2 := E.reverse.dropWhile p with hD2
  set dwB := D2.reverse with hdwB
  set tail := live.drop (r + 1) with htail
  have hAl : A.length = l := by
    rw [hA, List.length_take]
    omega
  have hwlen : w.length = r + 1 - l := by
    rw [hw]
    simp only [List.length_take, List.length_drop]
    omega
  have hdwlen : dwB.length ≤ w.length := by
    rw [hdwB]
    calc D2.reverse.length = D2.length := by simp
      _ ≤ E.reverse.length := by
          rw [hD2]
          exact dropWhile_length_le _ _
      _ = E.length := by simp
      _ ≤ w.length := by
          rw [hE]
          exact dropWhile_length_le _ _
  have htlen : tail.length = live.length - (r + 1) := by
    rw [htail]
    simp
  have hnl : spliceWindow s l r (fun w0 =>
      ((w0.dropWhile (fun c => ((some S).getD []).contains c)).reverse.dropWhile
        (fun c => ((some S).getD []).contains c)).reverse)
      = A ++ dwB ++ tail := by
    unfold spliceWindow
    dsimp only [Option.getD_some]
  rw [hnl] at hs
  have hsize' : s'.size = A.length + dwB.length + tail.length := by
    rw [hs]
    show (A ++ dwB ++ tail).length = _
    simp only [List.length_append]
  have hk : s.size - s'.size = (r + 1 - l) - dwB.length := by
    rw [hsize']
    omega
  have hdwpos : dwB ≠ [] := by
    intro hdwe
    rw [hdwe] at hsize'
    simp at hsize'
    omega
  have hdwposlen : 1 ≤ dwB.length := by
    cases hx : dwB with
    | nil => exact absurd hx hdwpos
    | cons a t => simp
  have hrk : r - (s.size - s'.size) = l + dwB.length - 1 := by
    rw [hk]
    omega
  have hlive' : liveOf s' = A ++ dwB ++ tail := by
    rw [hs]
    exact liveOf_setLive s _
  have hcap' : s'.capacity = s.capacity := by
    rw [hs]
    rfl
  have hsz' : s'.size ≤ s.size := by
    rw [hsize']
    omega
  have hszpos : 1 ≤ s'.size := by
    rw [hsize']
    omega
  have hc2 : rangeChecks s' l (r - (s.size - s'.size)) (some S) false =
      Option.none := by
    apply rangeChecks_none_of
    · rw [hcap']
      omega
    · rw [hs]
      exact setLive_terminator s _
    · omega
    · simpa using hSne
    · rw [hrk, hsize']
      omega
    · omega
    · intro hx
      exact absurd hx (by simp)
  have hD2pos : D2 ≠ [] := by
    intro hx
    rw [hdwB, hx] at hdwpos
    exact hdwpos rfl
  have hEpos : E ≠ [] := by
    intro hx
    rw [hD2, hx] at hD2pos
    simp at hD2pos
  obtain ⟨c2, t2, hc2d, hpc2⟩ := dropWhile_ne_nil_head p E.reverse hD2pos
  rw [← hD2] at hc2d
  obtain ⟨e, et, hed, hpe⟩ := dropWhile_ne_nil_head p w hEpos
  rw [← hE] at hed
  -- head of the trimmed window survives and is outside the set
  have hdwBhead : dwB.head? = some e := by
    rw [hdwB, List.head?_reverse, hD2, getLast?_dropWhile p E.reverse hD2pos,
      List.getLast?_reverse, hed]
    rfl
  have hdwBdrop : dwB.dropWhile p = dwB := by
    cases hx : dwB with
    | nil => exact absurd hx hdwpos
    | cons a t =>
      rw [hx] at hdwBhead
      injection hdwBhead with hae
      rw [hae]
      exact dropWhile_cons_self p e t hpe
  have hdwBrev : dwB.reverse.dropWhile p = dwB.reverse := by
    rw [hdwB, List.reverse_reverse, hc2d]
    exact dropWhile_cons_self p c2 t2 hpc2
  have hfdwB : ((dwB.dropWhile p).reverse.dropWhile p).reverse = dwB := by
    rw [hdwBdrop, hdwBrev, List.reverse_reverse]
  -- the second window is exactly the trimmed window
  have hdrop : (liveOf s').drop l = dwB ++ tail := by
    rw [hlive', List.append_assoc, ← hAl, List.drop_left]
  have hwin2 : ((liveOf s').drop l).take (r - (s.size - s'.size) + 1 - l) =
      dwB := by
    rw [hdrop]
    have harith : r - (s.size - s'.size) + 1 - l = dwB.length := by
      rw [hrk]
      omega
    rw [harith, List.take_left]
  have hsplice2 : spliceWindow s' l (r - (s.size - s'.size)) (fun w0 =>
      ((w0.dropWhile (fun c0 => ((some S).getD []).contains c0)).reverse.dropWhile
        (fun c0 => ((some S).getD []).contains c0)).reverse)
      = liveOf s' := by
    unfold spliceWindow
    dsimp only [Option.getD_some]
    rw [← hp, hwin2, hfdwB, ← hwin2]
    exact splice_id (liveOf s') l (r - (s.size - s'.size)) (by omega)
  have hres : mdz_ansi_dyn_trim (some s') l (r - (s.size - s'.size))
      (some S) = (.MDZ_ERROR_NONE, some (setLive s' (spliceWindow s' l
        (r - (s.size - s'.size)) (fun w0 => ((w0.dropWhile
          (fun c0 => ((some S).getD []).contains c0)).reverse.dropWhile
          (fun c0 => ((some S).getD []).contains c0)).reverse)))) := by
    simp [mdz_ansi_dyn_trim, hc2]
  rw [hres, hsplice2, hlive', hs, setLive_idem]

/-- Concrete handle with content `"baaa"` (bytes `[98, 97, 97, 97]`). -/
def exBaaa : mdz_AnsiDyn :=
  { addr := 0, buf := [98, 97, 97, 97, 0], size := 4, capacity := 4,
    attached := false }

/-- C9 counterexample: on content `"baaa"` with byte set `{ 'a' }` and range
`[0, 1]`, the first trimRight succeeds (one byte removed, size 4 to 3), and
repeating the very same call trims again (size 3 to 2): the bytes that
shifted into the numeric range are trimmed, so the second application is not
a no-op. -/
theorem C9_trim_idempotence_counterexample :
    (mdz_ansi_dyn_trimRight (some exBaaa) 0 1 (some [97])).1 =
      .MDZ_ERROR_NONE ∧
    ((mdz_ansi_dyn_trimRight (some exBaaa) 0 1 (some [97])).2.getD
      exBaaa).size = 3 ∧
    (mdz_ansi_dyn_trimRight ((mdz_ansi_dyn_trimRight (some exBaaa) 0 1
      (some [97])).2) 0 1 (some [97])).1 = .MDZ_ERROR_NONE ∧
    ((mdz_ansi_dyn_trimRight ((mdz_ansi_dyn_trimRight (some exBaaa) 0 1
      (some [97])).2) 0 1 (some [97])).2.getD exBaaa).size = 2 := by
  refine ⟨?_, ?_, ?_, ?_⟩ <;> decide

/-- C9 (amended): a second trim with the same byte set applied to the
surviving window is a no-op.  After a successful trimLeft over
`[nLeftPos, nRightPos]` that left a survivor in the window, any further
trimLeft from the same left position over a valid range returns success and
the identical state; after a successful trimRight (resp. trim) that left a
survivor, the same operation over the window with the right edge reduced by
the number of removed bytes returns success and the identical state.  (With
the same numeric range instead, bytes shifted in from the right can be
trimmed by the second call.) -/
theorem C9_trim_idempotence_amended :
    (∀ s s' l r r' S,
      mdz_ansi_dyn_trimLeft (some s) l r (some S) =
        (.MDZ_ERROR_NONE, some s') →
      s.size - s'.size < r + 1 - l → l ≤ r' → r' < s'.size →
      mdz_ansi_dyn_trimLeft (some s') l r' (some S) =
        (.MDZ_ERROR_NONE, some s')) ∧
    (∀ s s' l r l' S,
      mdz_ansi_dyn_trimRight (some s) l r (some S) =
        (.MDZ_ERROR_NONE, some s') →
      s.size - s'.size < r + 1 - l → l' ≤ r - (s.size - s'.size) →
      mdz_ansi_dyn_trimRight (some s') l' (r - (s.size - s'.size))
        (some S) = (.MDZ_ERROR_NONE, some s')) ∧
    (∀ s s' l r S,
      mdz_ansi_dyn_trim (some s) l r (some S) =
        (.MDZ_ERROR_NONE, some s') →
      s.size - s'.size < r + 1 - l →
      mdz_ansi_dyn_trim (some s') l (r - (s.size - s'.size)) (some S) =
        (.MDZ_ERROR_NONE, some s')) :=
  ⟨fun s s' l r r' S h h1 h2 h3 => trimLeft_noop s s' l r r' S h h1 h2 h3,
   fun s s' l r l' S h h1 h2 => trimRight_noop s s' l r l' S h h1 h2,
   fun s s' l r S h h1 => trim_noop s s' l r S h h1⟩

/-- Instantiation of the amended C9 on the concrete handle `"baaa"`: a
second trimLeft, trimRight and trim over the surviving window each leave the
state unchanged. -/
theorem C9_trim_idempotence_witness :
    mdz_ansi_dyn_trimLeft ((mdz_ansi_dyn_trimLeft (some exBaaa) 0 3
        (some [97])).2) 0 2 (some [97]) =
      (.MDZ_ERROR_NONE, (mdz_ansi_dyn_trimLeft (some exBaaa) 0 3
        (some [97])).2) ∧
    mdz_ansi_dyn_trimRight ((mdz_ansi_dyn_trimRight (some exBaaa) 0 3
        (some [97])).2) 0 0 (some [97]) =
      (.MDZ_ERROR_NONE, (mdz_ansi_dyn_trimRight (some exBaaa) 0 3
        (some [97])).2) ∧
    mdz_ansi_dyn_trim ((mdz_ansi_dyn_trim (some exBaaa) 0 3
        (some [97])).2) 0 0 (some [97]) =
      (.MDZ_ERROR_NONE, (mdz_ansi_dyn_trim (some exBaaa) 0 3
        (some [97])).2) :=
  ⟨C9_trim_idempotence_amended.1 exBaaa
      ((mdz_ansi_dyn_trimLeft (some exBaaa) 0 3 (some [97])).2.getD exBaaa)
      0 3 2 [97] (by decide) (by decide) (by decide) (by decide),
   C9_trim_idempotence_amended.2.1 exBaaa
      ((mdz_ansi_dyn_trimRight (some exBaaa) 0 3 (some [97])).2.getD exBaaa)
      0 3 0 [97] (by decide) (by decide) (by decide),
   C9_trim_idempotence_amended.2.2 exBaaa
      ((mdz_ansi_dyn_trim (some exBaaa) 0 3 (some [97])).2.getD exBaaa)
      0 3 [97] (by decide) (by decide)⟩

theorem lastIdx_lt (l : List Nat) (c : Nat) :
    ∀ i, lastIdx l c = some i → i < l.length := by
  induction l with
  | nil => intro i h; exact Option.noConfusion h
  | cons a t ih =>
    intro i h
    unfold lastIdx at h
    cases hx : lastIdx t c with
    | some j =>
      rw [hx] at h
      injection h with h1
      have := ih j hx
      simp only [List.length_cons]
      omega
    | none =>
      rw [hx] at h
      by_cases hac : a = c
      · rw [if_pos hac] at h
        injection h with h1
        simp [← h1]
      · rw [if_neg hac] at h
        exact Option.noConfusion h

theorem lastIdx_getD (l : List Nat) (c : Nat) :
    ∀ i, lastIdx l c = some i → l.getD i 0 = c := by
  induction l with
  | nil => intro i h; exact Option.noConfusion h
  | cons a t ih =>
    intro i h
    unfold lastIdx at h
    cases hx : lastIdx t c with
    | some j =>
      rw [hx] at h
      injection h with h1
      rw [← h1]
      simpa using ih j hx
    | none =>
      rw [hx] at h
      by_cases hac : a = c
      · rw [if_pos hac] at h
        injection h with h1
        rw [← h1]
        simpa using hac
      · rw [if_neg hac] at h
        exact Option.noConfusion h

theorem lastIdx_none (l : List Nat) (c : Nat)
    (h : lastIdx l c = Option.none) :
    ∀ j, j < l.length → l.getD j 0 ≠ c := by
  induction l with
  | nil => intro j hj; simp at hj
  | cons a t ih =>
    intro j hj
    unfold lastIdx at h
    cases hx : lastIdx t c with
    | some q =>
      rw [hx] at h
      exact Option.noConfusion h
    | none =>
      rw [hx] at h
      by_cases hac : a = c
      · rw [if_pos hac] at h
        exact Option.noConfusion h
      · rw [if_neg hac] at h
        match j with
        | 0 => simpa using hac
        | j0 + 1 =>
          have := ih hx j0 (by simpa using hj)
          simpa using this

theorem lastIdx_max (l : List Nat) (c : Nat) :
    ∀ i, lastIdx l c = some i →
      ∀ j, i < j → j < l.length → l.getD j 0 ≠ c := by
  induction l with
  | nil => intro i h; exact absurd h (by simp [lastIdx])
  | cons a t ih =>
    intro i h j hij hj
    unfold lastIdx at h
    cases hx : lastIdx t c with
    | some q =>
      rw [hx] at h
      injection h with h1
      match j, hij with
      | j0 + 1, _ =>
        have : q < j0 := by omega
        have := ih q hx j0 this (by simpa using hj)
        simpa using this
    | none =>
      rw [hx] at h
      by_cases hac : a = c
      · rw [if_pos hac] at h
        injection h with h1
        match j, hij with
        | j0 + 1, _ =>
          have := lastIdx_none t c hx j0 (by simpa using hj)
          simpa using this
      · rw [if_neg hac] at h
        exact Option.noConfusion h

theorem bmhSkip_pos (pat : List Nat) (c : Nat) : 1 ≤ bmhSkip pat c := by
  unfold bmhSkip
  cases hx : lastIdx (pat.take (pat.length - 1)) c with
  | some i =>
    have hi := lastIdx_lt _ _ i hx
    rw [List.length_take] at hi
    dsimp only
    omega
  | none =>
    exact le_refl 1

theorem matchAt_len (w pat : List Nat) (j : Nat) (hm : 1 ≤ pat.length)
    (h : MatchAt w pat j) : j + pat.length ≤ w.length := by
  unfold MatchAt at h
  have h2 := congrArg List.length h
  simp only [List.length_take, List.length_drop] at h2
  omega

theorem matchAt_getD (w pat : List Nat) (j : Nat) (h : MatchAt w pat j) :
    ∀ t, t < pat.length → pat.getD t 0 = w.getD (j + t) 0 := by
  intro t ht
  unfold MatchAt at h
  rw [← h, List.getD_eq_getElem?_getD, List.getD_eq_getElem?_getD,
    List.getElem?_take, if_pos ht, List.getElem?_drop]

theorem bmh_skip_safe (w pat : List Nat) (k j : Nat) (hm : 1 ≤ pat.length)
    (hj1 : k < j)
    (hj2 : j < k + bmhSkip pat (w.getD (k + pat.length - 1) 0)) :
    ¬ MatchAt w pat j := by
  intro hM
  unfold bmhSkip at hj2
  cases hx : lastIdx (pat.take (pat.length - 1))
      (w.getD (k + pat.length - 1) 0) with
  | none =>
    rw [hx] at hj2
    dsimp only at hj2
    omega
  | some i =>
    rw [hx] at hj2
    dsimp only at hj2
    have hiB := lastIdx_lt _ _ i hx
    rw [List.length_take] at hiB
    have hjm := matchAt_len w pat j hm hM
    have hidx : j + (pat.length - 1 - (j - k)) = k + pat.length - 1 := by
      omega
    have h1 : pat.getD (pat.length - 1 - (j - k)) 0 =
        w.getD (k + pat.length - 1) 0 := by
      have h0 := matchAt_getD w pat j hM (pat.length - 1 - (j - k)) (by omega)
      rw [h0, hidx]
    have h2 : (pat.take (pat.length - 1)).getD
        (pat.length - 1 - (j - k)) 0 =
        pat.getD (pat.length - 1 - (j - k)) 0 := by
      rw [List.getD_eq_getElem?_getD, List.getD_eq_getElem?_getD,
        List.getElem?_take, if_pos (by omega)]
    have h3 := lastIdx_max _ _ i hx (pat.length - 1 - (j - k)) (by omega)
      (by rw [List.length_take]; omega)
    rw [h2, h1] at h3
    exact h3 rfl

theorem specFindFrom_eq (w pat : List Nat) (k : Nat) :
    specFindFrom w pat k =
      if k + pat.length ≤ w.length then
        (if MatchAt w pat k then some k else specFindFrom w pat (k + 1))
      else Option.none := by
  unfold specFindFrom
  by_cases hk : k ≤ w.length
  · rw [show w.length + 1 - k = (w.length - k) + 1 from by omega,
      show w.length + 1 - (k + 1) = w.length - k from by omega]
    rfl
  · rw [show w.length + 1 - k = 0 from by omega, if_neg (by omega)]
    rfl

theorem specFindFrom_none_iff (w pat : List Nat) (k : Nat) :
    specFindFrom w pat k = Option.none ↔
      ∀ j, k ≤ j → j + pat.length ≤ w.length → ¬ MatchAt w pat j := by
  have main : ∀ fuel k0, w.length + 1 - k0 ≤ fuel →
      (specFindFrom w pat k0 = Option.none ↔
        ∀ j, k0 ≤ j → j + pat.length ≤ w.length → ¬ MatchAt w pat j) := by
    intro fuel
    induction fuel with
    | zero =>
      intro k0 hk
      rw [specFindFrom_eq, if_neg (by omega)]
      constructor
      · intro _ j hj1 hj2 _
        omega
      · intro _
        rfl
    | succ fuel ih =>
      intro k0 hk
      rw [specFindFrom_eq]
      by_cases h1 : k0 + pat.length ≤ w.length
      · rw [if_pos h1]
        by_cases h2 : MatchAt w pat k0
        · rw [if_pos h2]
          constructor
          · intro hx
            exact Option.noConfusion hx
          · intro hall
            exact absurd h2 (hall k0 (le_refl k0) h1)
        · rw [if_neg h2, ih (k0 + 1) (by omega)]
          constructor
          · intro hall j hj1 hj2
            by_cases hjk : j = k0
            · rw [hjk]
              exact h2
            · exact hall j (by omega) hj2
          · intro hall j hj1 hj2
            exact hall j (by omega) hj2
      · rw [if_neg h1]
        constructor
        · intro _ j hj1 hj2 _
          omega
        · intro _
          rfl
  exact main (w.length + 1 - k) k (le_refl _)

theorem specFindFrom_some_iff (w pat : List Nat) (k i : Nat) :
    specFindFrom w pat k = some i ↔
      (k ≤ i ∧ i + pat.length ≤ w.length ∧ MatchAt w pat i ∧
        ∀ j, k ≤ j → j < i → ¬ MatchAt w pat j) := by
  have main : ∀ fuel k0, w.length + 1 - k0 ≤ fuel →
      (specFindFrom w pat k0 = some i ↔
        (k0 ≤ i ∧ i + pat.length ≤ w.length ∧ MatchAt w pat i ∧
          ∀ j, k0 ≤ j → j < i → ¬ MatchAt w pat j)) := by
    intro fuel
    induction fuel with
    | zero =>
      intro k0 hk
      rw [specFindFrom_eq, if_neg (by omega)]
      constructor
      · intro hx
        exact Option.noConfusion hx
      · intro hr
        exfalso
        omega
    | succ fuel ih =>
      intro k0 hk
      rw [specFindFrom_eq]
      by_cases h1 : k0 + pat.length ≤ w.length
      · rw [if_pos h1]
        by_cases h2 : MatchAt w pat k0
        · rw [if_pos h2]
          constructor
          · intro hx
            injection hx with hx1
            rw [← hx1]
            exact ⟨le_refl k0, h1, h2, fun j hj1 hj2 _ => by omega⟩
          · intro ⟨hki, him, hiM, hmin⟩
            have : i = k0 := by
              by_contra hne
              exact hmin k0 (le_refl k0) (by omega) h2
            rw [this]
        · rw [if_neg h2, ih (k0 + 1) (by omega)]
          constructor
          · intro ⟨hki, him, hiM, hmin⟩
            refine ⟨by omega, him, hiM, ?_⟩
            intro j hj1 hj2
            by_cases hjk : j = k0
            · rw [hjk]
              exact h2
            · exact hmin j (by omega) hj2
          · intro ⟨hki, him, hiM, hmin⟩
            have hik : i ≠ k0 := by
              intro he
              rw [he] at hiM
              exact h2 hiM
            refine ⟨by omega, him, hiM, ?_⟩
            intro j hj1 hj2
            exact hmin j (by omega) hj2
      · rw [if_neg h1]
        constructor
        · intro hx
          exact Option.noConfusion hx
        · intro ⟨hki, him, _, _⟩
          exfalso
          omega
  exact main (w.length + 1 - k) k (le_refl _)

theorem specFindFrom_step (w pat : List Nat) (k : Nat)
    (h : ¬ MatchAt w pat k) :
    specFindFrom w pat k = specFindFrom w pat (k + 1) := by
  rw [specFindFrom_eq]
  by_cases h1 : k + pat.length ≤ w.length
  · rw [if_pos h1, if_neg h]
  · rw [if_neg h1, specFindFrom_eq, if_neg (by omega)]

theorem specFindFrom_shift (w pat : List Nat) (k : Nat) : ∀ t,
    (∀ j, k ≤ j → j < k + t → ¬ MatchAt w pat j) →
    specFindFrom w pat k = specFindFrom w pat (k + t) := by
  intro t
  induction t with
  | zero => intro _; rfl
  | succ t ih =>
    intro hall
    rw [ih (fun j h1 h2 => hall j h1 (by omega)),
      specFindFrom_step w pat (k + t) (hall (k + t) (by omega) (by omega))]
    rfl

theorem bmhLoopF_eq_spec (w pat : List Nat) : ∀ fuel k,
    w.length + 1 - k ≤ fuel →
    bmhLoopF fuel w pat k = specFindFrom w pat k := by
  intro fuel
  induction fuel with
  | zero =>
    intro k hk
    rw [specFindFrom_eq, if_neg (by omega)]
    rfl
  | succ fuel ih =>
    intro k hk
    show (if k + pat.length ≤ w.length then
        (if (w.drop k).take pat.length = pat then some k
         else bmhLoopF fuel w pat
           (k + bmhSkip pat (w.getD (k + pat.length - 1) 0)))
      else Option.none) = _
    by_cases h1 : k + pat.length ≤ w.length
    · rw [if_pos h1]
      by_cases h2 : (w.drop k).take pat.length = pat
      · rw [if_pos h2, specFindFrom_eq, if_pos h1,
          if_pos (show MatchAt w pat k from h2)]
      · rw [if_neg h2]
        have hm : 1 ≤ pat.length := by
          by_contra hx
          push_neg at hx
          have hpe : pat = [] := List.eq_nil_of_length_eq_zero (by omega)
          rw [hpe] at h2
          exact h2 (by simp)
        have hskpos := bmhSkip_pos pat (w.getD (k + pat.length - 1) 0)
        rw [ih (k + bmhSkip pat (w.getD (k + pat.length - 1) 0)) (by omega)]
        refine (specFindFrom_shift w pat k _ ?_).symm
        intro j hj1 hj2
        by_cases hjk : j = k
        · rw [hjk]
          exact h2
        · exact bmh_skip_safe w pat k j hm (by omega) hj2
    · rw [if_neg h1, specFindFrom_eq, if_neg h1]

theorem bmhLoop_eq_spec (w pat : List Nat) (k : Nat) :
    bmhLoop w pat k = specFindFrom w pat k :=
  bmhLoopF_eq_spec w pat (w.length + 1 - k) k (le_refl _)

theorem specFindBack_none_iff (w pat : List Nat) : ∀ k,
    specFindBack w pat k = Option.none ↔
      ∀ j, j ≤ k → ¬ (j + pat.length ≤ w.length ∧ MatchAt w pat j) := by
  intro k
  induction k with
  | zero =>
    show (if pat.length ≤ w.length ∧ w.take pat.length = pat then some 0
      else Option.none) = Option.none ↔ _
    by_cases h : pat.length ≤ w.length ∧ w.take pat.length = pat
    · rw [if_pos h]
      constructor
      · intro hx
        exact Option.noConfusion hx
      · intro hall
        have hb := h.1
        exact absurd ⟨by omega, show MatchAt w pat 0 from h.2⟩
          (hall 0 (le_refl 0))
    · rw [if_neg h]
      constructor
      · intro _ j hj
        have hj0 : j = 0 := by omega
        rw [hj0]
        intro hx
        have hb := hx.1
        exact h ⟨by omega, hx.2⟩
      · intro _
        rfl
  | succ k ih =>
    show (if k + 1 + pat.length ≤ w.length ∧
        (w.drop (k + 1)).take pat.length = pat then some (k + 1)
      else specFindBack w pat k) = Option.none ↔ _
    by_cases h : k + 1 + pat.length ≤ w.length ∧
        (w.drop (k + 1)).take pat.length = pat
    · rw [if_pos h]
      constructor
      · intro hx
        exact Option.noConfusion hx
      · intro hall
        exact absurd ⟨h.1, show MatchAt w pat (k + 1) from h.2⟩
          (hall (k + 1) (le_refl _))
    · rw [if_neg h, ih]
      constructor
      · intro hall j hj
        by_cases hjk : j = k + 1
        · rw [hjk]
          intro hx
          exact h ⟨hx.1, hx.2⟩
        · exact hall j (by omega)
      · intro hall j hj
        exact hall j (by omega)
  termination_by k => k

theorem specFindBack_some_iff (w pat : List Nat) : ∀ k i,
    specFindBack w pat k = some i ↔
      (i ≤ k ∧ i + pat.length ≤ w.length ∧ MatchAt w pat i ∧
        ∀ j, j ≤ k → i < j →
          ¬ (j + pat.length ≤ w.length ∧ MatchAt w pat j)) := by
  intro k
  induction k with
  | zero =>
    intro i
    show (if pat.length ≤ w.length ∧ w.take pat.length = pat then some 0
      else Option.none) = some i ↔ _
    by_cases h : pat.length ≤ w.length ∧ w.take pat.length = pat
    · rw [if_pos h]
      constructor
      · intro hx
        injection hx with hx1
        rw [← hx1]
        have hb := h.1
        exact ⟨le_refl 0, by omega, show MatchAt w pat 0 from h.2,
          fun j hj1 hj2 _ => by omega⟩
      · intro ⟨hi0, hib, hiM, _⟩
        have : i = 0 := by omega
        rw [this]
    · rw [if_neg h]
      constructor
      · intro hx
        exact Option.noConfusion hx
      · intro ⟨hi0, hib, hiM, _⟩
        exfalso
        have : i = 0 := by omega
        rw [this] at hib hiM
        exact h ⟨by simpa using hib, hiM⟩
  | succ k ih =>
    intro i
    show (if k + 1 + pat.length ≤ w.length ∧
        (w.drop (k + 1)).take pat.length = pat then some (k + 1)
      else specFindBack w pat k) = some i ↔ _
    by_cases h : k + 1 + pat.length ≤ w.length ∧
        (w.drop (k + 1)).take pat.length = pat
    · rw [if_pos h]
      constructor
      · intro hx
        injection hx with hx1
        rw [← hx1]
        exact ⟨le_refl _, h.1, show MatchAt w pat (k + 1) from h.2,
          fun j hj1 hj2 _ => by omega⟩
      · intro ⟨hik, hib, hiM, hmin⟩
        have : i = k + 1 := by
          by_contra hne
          exact hmin (k + 1) (le_refl _) (by omega) ⟨h.1, h.2⟩
        rw [this]
    · rw [if_neg h, ih i]
      constructor
      · intro ⟨hik, hib, hiM, hmin⟩
        refine ⟨by omega, hib, hiM, ?_⟩
        intro j hj1 hj2
        by_cases hjk : j = k + 1
        · rw [hjk]
          intro hx
          exact h ⟨hx.1, hx.2⟩
        · exact hmin j (by omega) hj2
      · intro ⟨hik, hib, hiM, hmin⟩
        have hik' : i ≤ k := by
          by_cases hie : i = k + 1
          · exfalso
            rw [hie] at hib hiM
            exact h ⟨hib, hiM⟩
          · omega
        refine ⟨hik', hib, hiM, ?_⟩
        intro j hj1 hj2
        exact hmin j (by omega) hj2

theorem matchAt_rev (w pat : List Nat) (i : Nat)
    (him : i + pat.length ≤ w.length) :
    MatchAt w pat i ↔
      MatchAt w.reverse pat.reverse (w.length - pat.length - i) := by
  unfold MatchAt
  have hL : pat.reverse.length = pat.length := by simp
  rw [hL]
  have h1 : w.reverse.drop (w.length - pat.length - i) =
      (w.take (i + pat.length)).reverse := by
    rw [List.reverse_take]
    congr 1
    omega
  have h2 : (w.take (i + pat.length)).reverse.take pat.length =
      ((w.take (i + pat.length)).drop i).reverse := by
    rw [List.reverse_drop]
    congr 1
    rw [List.length_take]
    omega
  have h3 : (w.take (i + pat.length)).drop i =
      (w.drop i).take pat.length := by
    rw [List.drop_take]
    congr 1
    omega
  rw [h1, h2, h3]
  constructor
  · intro h
    rw [h]
  · intro h
    have h4 := congrArg List.reverse h
    simpa using h4

theorem bmh_rev_eq_back (w pat : List Nat) (hm : 1 ≤ pat.length) :
    (match bmhLoop w.reverse pat.reverse 0 with
     | some j => some (w.length - pat.length - j)
     | Option.none => Option.none) =
    specFindBack w pat (w.length - pat.length) := by
  rw [bmhLoop_eq_spec]
  cases hx : specFindFrom w.reverse pat.reverse 0 with
  | none =>
    rw [specFindFrom_none_iff] at hx
    symm
    rw [specFindBack_none_iff]
    intro j hj hpair
    have hjb := hpair.1
    have hjM := hpair.2
    have hrev := (matchAt_rev w pat j hjb).mp hjM
    have hbound : (w.length - pat.length - j) + pat.reverse.length ≤
        w.reverse.length := by
      simp only [List.length_reverse]
      omega
    exact hx (w.length - pat.length - j) (Nat.zero_le _) hbound hrev
  | some j =>
    rw [specFindFrom_some_iff] at hx
    obtain ⟨_, hjb, hjM, hjmin⟩ := hx
    simp only [List.length_reverse] at hjb
    symm
    show specFindBack w pat (w.length - pat.length) =
      some (w.length - pat.length - j)
    rw [specFindBack_some_iff]
    have hb : (w.length - pat.length - j) + pat.length ≤ w.length := by
      omega
    have hrev : MatchAt w pat (w.length - pat.length - j) := by
      refine (matchAt_rev w pat (w.length - pat.length - j) hb).mpr ?_
      rw [show w.length - pat.length - (w.length - pat.length - j) = j from
        by omega]
      exact hjM
    refine ⟨by omega, hb, hrev, ?_⟩
    intro j' hj'1 hj'2 hpair
    have hj'b := hpair.1
    have hj'M := hpair.2
    have hrev' := (matchAt_rev w pat j' hj'b).mp hj'M
    exact hjmin (w.length - pat.length - j') (Nat.zero_le _) (by omega) hrev'

theorem findChecks_none_of (s : mdz_AnsiDyn) (l r : Nat) (items : List Nat)
    (h1 : ¬ s.capacity < s.size) (h2 : terminatorOk s)
    (h3 : ¬ items.length = 0) (h4 : ¬ s.size ≤ r) (h5 : ¬ r < l)
    (h6 : ¬ r + 1 - l < items.length) :
    findChecks s l r (some items) = Option.none := by
  unfold findChecks
  rw [if_neg h1, if_neg (not_not_intro h2)]
  dsimp only
  rw [if_neg h3, if_neg h4, if_neg h5, if_neg h6]

/-- C5: the Boyer-Moore-Horspool searches of `find` and `rfind` coincide
with the naive scans: on a valid range and pattern, `find` returns
`nLeftPos` plus the smallest window alignment with a full match (`SIZE_MAX`
when there is none), `rfind` the largest such alignment, where the
specification-side scans are characterised as the smallest (respectively
largest) matching index. -/
theorem C5_bmh_refines_naive :
    (∀ s l r pat, s.size ≤ s.capacity → terminatorOk s → 1 ≤ pat.length →
      r < s.size → l ≤ r → pat.length ≤ r + 1 - l →
      mdz_ansi_dyn_find (some s) l r (some pat) =
        ((match specFindFrom (windowOf s l r) pat 0 with
          | some i => l + i
          | Option.none => SIZE_MAX), .MDZ_ERROR_NONE)) ∧
    (∀ s l r pat, s.size ≤ s.capacity → terminatorOk s → 1 ≤ pat.length →
      r < s.size → l ≤ r → pat.length ≤ r + 1 - l →
      mdz_ansi_dyn_rfind (some s) l r (some pat) =
        ((match specFindBack (windowOf s l r) pat
            ((windowOf s l r).length - pat.length) with
          | some i => l + i
          | Option.none => SIZE_MAX), .MDZ_ERROR_NONE)) ∧
    (∀ w pat i, specFindFrom w pat 0 = some i ↔
      (i + pat.length ≤ w.length ∧ MatchAt w pat i ∧
        ∀ j, j < i → ¬ MatchAt w pat j)) ∧
    (∀ w pat i, specFindBack w pat (w.length - pat.length) = some i ↔
      (i + pat.length ≤ w.length ∧ MatchAt w pat i ∧
        ∀ j, i < j → j + pat.length ≤ w.length → ¬ MatchAt w pat j)) := by
  refine ⟨?_, ?_, ?_, ?_⟩
  · intro s l r pat hsc hterm hm hr hlr hcount
    have hchk := findChecks_none_of s l r pat (by omega) hterm (by omega)
      (by omega) (by omega) (by omega)
    unfold mdz_ansi_dyn_find
    dsimp only
    rw [hchk]
    dsimp only [Option.getD_some]
    rw [bmhLoop_eq_spec]
    cases specFindFrom (windowOf s l r) pat 0 <;> rfl
  · intro s l r pat hsc hterm hm hr hlr hcount
    have hchk := findChecks_none_of s l r pat (by omega) hterm (by omega)
      (by omega) (by omega) (by omega)
    have hb := bmh_rev_eq_back (windowOf s l r) pat hm
    unfold mdz_ansi_dyn_rfind
    dsimp only
    rw [hchk]
    dsimp only [Option.getD_some]
    cases hx : bmhLoop (windowOf s l r).reverse pat.reverse 0 with
    | none =>
      rw [hx] at hb
      dsimp only at hb
      rw [← hb]
    | some j =>
      rw [hx] at hb
      dsimp only at hb
      rw [← hb]
  · intro w pat i
    rw [specFindFrom_some_iff]
    constructor
    · intro ⟨_, h2, h3, h4⟩
      exact ⟨h2, h3, fun j hj => h4 j (Nat.zero_le j) hj⟩
    · intro ⟨h2, h3, h4⟩
      exact ⟨Nat.zero_le i, h2, h3, fun j _ hj => h4 j hj⟩
  · intro w pat i
    rw [specFindBack_some_iff]
    constructor
    · intro ⟨h1, h2, h3, h4⟩
      refine ⟨h2, h3, ?_⟩
      intro j hj1 hj2 hM
      exact h4 j (by omega) hj1 ⟨hj2, hM⟩
    · intro ⟨h2, h3, h4⟩
      refine ⟨by omega, h2, h3, ?_⟩
      intro j hj1 hj2 hpair
      exact h4 j hj2 hpair.1 hpair.2

/-- Instantiation of C5 on the concrete handle `"abcabcabc"` with pattern
`"bc"` over the range `[0, 8]`. -/
theorem C5_bmh_refines_naive_witness :
    mdz_ansi_dyn_find (some exAbc) 0 8 (some [98, 99]) =
      ((match specFindFrom (windowOf exAbc 0 8) [98, 99] 0 with
        | some i => 0 + i
        | Option.none => SIZE_MAX), .MDZ_ERROR_NONE) ∧
    mdz_ansi_dyn_rfind (some exAbc) 0 8 (some [98, 99]) =
      ((match specFindBack (windowOf exAbc 0 8) [98, 99]
          ((windowOf exAbc 0 8).length - ([98, 99] : List Nat).length) with
        | some i => 0 + i
        | Option.none => SIZE_MAX), .MDZ_ERROR_NONE) :=
  ⟨C5_bmh_refines_naive.1 exAbc 0 8 [98, 99] (by decide) (by decide)
      (by decide) (by decide) (by decide) (by decide),
   C5_bmh_refines_naive.2.1 exAbc 0 8 [98, 99] (by decide) (by decide)
      (by decide) (by decide) (by decide) (by decide)⟩
